import Mathlib

/-!
# downscalerk8s: rule validator and scaling strategies

Shallow embedding of `internal/scheduler/validate.go` and
`internal/factory/factory.go`.

* Go pointers are `Option` values (`none` is the nil pointer).
* Go slices are `Option (List α)` (`none` is the nil slice, `some []` an empty
  non-nil slice); `sliceLen` is Go's `len`.
* A function that appends to `*[]error` takes the list and returns the new one.
* Log output is returned as a list of records, oldest first.
-/

set_option autoImplicit false

/-! ## Go standard library: `strings` -/

namespace strings

/-- Pieces of a character list cut at every occurrence of `sep`
(`strings.Split` with a one-character separator, on the characters). -/
def splitChars (sep : Char) : List Char → List (List Char)
  | [] => [[]]
  | c :: cs =>
    if c = sep then [] :: splitChars sep cs
    else
      match splitChars sep cs with
      | [] => [[c]]
      | piece :: pieces => (c :: piece) :: pieces

/-- Go `strings.Split(s, sep)` for a separator of one ASCII character: the
substrings between the separators, `Count(s, sep) + 1` of them. -/
def Split (s : String) (sep : Char) : List String :=
  (splitChars sep s.data).map String.mk

/-- Go `unicode.ToLower`: ASCII upper-case letters are moved to lower case by
adding `'a' - 'A'`, other ASCII characters are kept; characters above
`MaxASCII` go through the Unicode case tables, taken here as the parameter
`caseTable`. -/
def unicodeToLower (caseTable : Char → Char) (r : Char) : Char :=
  if r.toNat ≤ 127 then
    if 65 ≤ r.toNat ∧ r.toNat ≤ 90 then Char.ofNat (r.toNat + 32) else r
  else caseTable r

/-- Go `strings.ToLower(s)`: every character mapped through
`unicode.ToLower`. -/
def ToLower (caseTable : Char → Char) (s : String) : String :=
  String.mk (s.data.map (unicodeToLower caseTable))

end strings

/-- Go `len` of a slice: 0 for the nil slice. -/
def sliceLen {α : Type} : Option (List α) → Nat
  | none => 0
  | some xs => xs.length

/-! ## `api/v1alpha1`: the declared configuration -/

namespace v1alpha1

/-- Modelled from the spec: `Schedule` of api/v1alpha1 (its declaration is not
part of the sources): the declared time zone. -/
structure Schedule where
  TimeZone : String
  deriving DecidableEq, Repr

/-- Modelled from the spec: `TimeRule` of api/v1alpha1 (declaration not part of
the sources): target namespaces and the two times of day. -/
structure Rule where
  Namespaces : Option (List String)
  UpscaleTime : String
  DownscaleTime : String
  deriving DecidableEq, Repr

/-- Modelled from the spec: `TimeRuleSet` of api/v1alpha1 (declaration not part
of the sources): the slice of rules, possibly nil. -/
structure TimeRules where
  Rules : Option (List Rule)
  deriving DecidableEq, Repr

/-- Modelled from the spec: `DownscalerOptions` of api/v1alpha1 (declaration
not part of the sources): an optional pointer to the rule set. -/
structure DownscalerOptions where
  TimeRules : Option TimeRules
  deriving DecidableEq, Repr

/-- Modelled from the spec: the `Spec` of the custom resource (declaration not
part of the sources); `Validate` takes the address of both fields, so they are
embedded values, not pointers. -/
structure DownscalerSpec where
  Schedule : Schedule
  DownscalerOptions : DownscalerOptions
  deriving DecidableEq, Repr

/-- Modelled from the spec: the custom resource read by `Validate` through
`s.app.Spec` (declaration not part of the sources). -/
structure Downscaler where
  Spec : DownscalerSpec
  deriving DecidableEq, Repr

end v1alpha1

/-! ## `internal/pkgerrors` -/

namespace pkgerrors

/-- Modelled from the spec: the error values of internal/pkgerrors (the package
is not part of the sources). Their message texts are unknown, so an error
stands for its own message where the code calls `.Error()`. -/
inductive PkgError
  | ErrNilInclude
  | ErrMalformedTimeZone
  | ErrTimeRulesBlockNotProvided
  | ErrRulesNotProvided
  | ErrEmptyNamespaces
  | ErrMalforedUpscaleTime
  | ErrMalforedDownscaleTime
  | ErrListTypeNotFound
  deriving DecidableEq, Repr

end pkgerrors

/-! ## `k8s.io/apimachinery/pkg/util/validation/field` -/

namespace field

/-- The library's `field.Path`: a root name, extended by named children and
subscripts. -/
inductive Path
  | root (name : String)
  | child (parent : Path) (name : String)
  | index (parent : Path) (i : Nat)
  deriving DecidableEq, Repr

/-- Library `field.NewPath(name)`. -/
def NewPath (name : String) : Path := Path.root name

/-- Library `(*Path).Child(name)`. -/
def Path.Child (p : Path) (name : String) : Path := Path.child p name

/-- Library `(*Path).Index(i)`; the subscript is kept as a number and printed
by `strconv.Itoa` when the path is rendered. -/
def Path.Index (p : Path) (i : Nat) : Path := Path.index p i

/-- Library `(*Path).String()`: elements from the root on; a named element
that has a parent is preceded by a dot; an element without a name is printed
as a subscript in square brackets. -/
def Path.String : Path → String
  | Path.root name => if name.length > 0 then name else "[]"
  | Path.child parent name =>
    parent.String ++ (if name.length > 0 then "." ++ name else "[]")
  | Path.index parent i => parent.String ++ ("[" ++ toString i ++ "]")

/-- The rejected value carried by a `field.Error` (Go `interface{}`), one case
per type the validator passes. -/
inductive BadValue
  | schedule (v : Option v1alpha1.Schedule)
  | str (v : String)
  | options (v : Option v1alpha1.DownscalerOptions)
  | timeRules (v : Option v1alpha1.TimeRules)
  | rules (v : Option (List v1alpha1.Rule))
  | namespaces (v : Option (List String))
  deriving DecidableEq, Repr

/-- The library's `field.Error` as built by `field.Invalid` (its type is always
`ErrorTypeInvalid`): rendered field path, rejected value, detail. -/
structure Error where
  Field : String
  BadValue : BadValue
  Detail : pkgerrors.PkgError
  deriving DecidableEq, Repr

/-- Library `field.Invalid(path, value, detail)`. -/
def Invalid (path : Path) (value : BadValue) (detail : pkgerrors.PkgError) : Error :=
  { Field := path.String, BadValue := value, Detail := detail }

end field

/-! ## `internal/scheduler/validate.go` -/

namespace scheduler

open pkgerrors.PkgError

def Spec : String := "spec"
def Schedule : String := "schedule"
def TimeZone : String := "timeZone"
def DownscalerOptions : String := "downscalerOptions"
def TimeRules : String := "timeRules"
def Rules : String := "rules"
def Namespaces : String := "namespaces"
def UpscaleTime : String := "upscaleTime"
def DownscaleTime : String := "downscaleTime"

/-- The receiver of `Validate`: it holds the custom resource in `app`. -/
structure Downscaler where
  app : v1alpha1.Downscaler
  deriving DecidableEq, Repr

/-- One `slog.Error(msg, key, err)` record written by `Validate`. -/
structure SlogRecord where
  msg : String
  key : String
  err : field.Error
  deriving DecidableEq, Repr

/-- Source `processScheduleFields(schedule, validationErrors)`. -/
def processScheduleFields (schedule : Option v1alpha1.Schedule)
    (validationErrors : List field.Error) : List field.Error :=
  match schedule with
  | none =>
    let err := field.Invalid ((field.NewPath Spec).Child Schedule)
      (field.BadValue.schedule schedule) ErrNilInclude
    validationErrors ++ [err]
  | some sched =>
    if sched.TimeZone = "" ∨ (strings.Split sched.TimeZone '/').length = 1 then
      let err := field.Invalid (((field.NewPath Spec).Child Schedule).Child TimeZone)
        (field.BadValue.str sched.TimeZone) ErrMalformedTimeZone
      validationErrors ++ [err]
    else validationErrors

/-- Body of the `for index, rule := range options.TimeRules.Rules` loop of
`processDownscalerOptions`, for the rule at position `index`. -/
def checkRule (childBase : field.Path) (index : Nat) (rule : v1alpha1.Rule)
    (validationErrors : List field.Error) : List field.Error :=
  let childRule := (childBase.Child TimeRules).Index index
  let validationErrors :=
    if sliceLen rule.Namespaces = 0 then
      validationErrors ++ [field.Invalid (childRule.Child Namespaces)
        (field.BadValue.namespaces rule.Namespaces) ErrEmptyNamespaces]
    else validationErrors
  let validationErrors :=
    if (strings.Split rule.UpscaleTime ':').length = 1 then
      validationErrors ++ [field.Invalid ((childRule.Child Namespaces).Child UpscaleTime)
        (field.BadValue.str rule.UpscaleTime) ErrMalforedUpscaleTime]
    else validationErrors
  let validationErrors :=
    if (strings.Split rule.DownscaleTime ':').length = 1 then
      validationErrors ++ [field.Invalid ((childRule.Child Namespaces).Child DownscaleTime)
        (field.BadValue.str rule.DownscaleTime) ErrMalforedDownscaleTime]
    else validationErrors
  validationErrors

/-- The `range` loop of `processDownscalerOptions` from position `index` on. -/
def rangeRules (childBase : field.Path) :
    Nat → List v1alpha1.Rule → List field.Error → List field.Error
  | _, [], validationErrors => validationErrors
  | index, rule :: rest, validationErrors =>
    rangeRules childBase (index + 1) rest (checkRule childBase index rule validationErrors)

/-- Source `processDownscalerOptions(options, validationErrors)`. -/
def processDownscalerOptions (options : Option v1alpha1.DownscalerOptions)
    (validationErrors : List field.Error) : List field.Error :=
  let childBase := (field.NewPath Spec).Child DownscalerOptions
  match options with
  | none =>
    validationErrors ++ [field.Invalid childBase (field.BadValue.options options) ErrNilInclude]
  | some opts =>
    match opts.TimeRules with
    | none =>
      validationErrors ++ [field.Invalid (childBase.Child TimeRules)
        (field.BadValue.timeRules opts.TimeRules) ErrTimeRulesBlockNotProvided]
    | some timeRules =>
      match timeRules.Rules with
      | none =>
        validationErrors ++ [field.Invalid ((childBase.Child TimeRules).Child Rules)
          (field.BadValue.rules timeRules.Rules) ErrRulesNotProvided]
      | some rules => rangeRules childBase 0 rules validationErrors

/-- Source `(*Downscaler).Validate()`: the boolean result together with the
`slog.Error` records written, in order. -/
def Downscaler.Validate (s : Downscaler) : Bool × List SlogRecord :=
  let valid := true
  let validationErrors : List field.Error := []
  let validationErrors := processScheduleFields (some s.app.Spec.Schedule) validationErrors
  let validationErrors :=
    processDownscalerOptions (some s.app.Spec.DownscalerOptions) validationErrors
  if validationErrors.length > 0 then
    (!valid, validationErrors.map (fun err =>
      { msg := "validation failed", key := "err", err := err }))
  else (valid, [])

/-- The errors `Validate` wrote to the log, in order. -/
def Downscaler.emitted (s : Downscaler) : List field.Error :=
  s.Validate.2.map SlogRecord.err

/-- The list built by `processScheduleFields` followed by
`processDownscalerOptions`, starting from the empty list. -/
def Downscaler.accumulated (s : Downscaler) : List field.Error :=
  processDownscalerOptions (some s.app.Spec.DownscalerOptions)
    (processScheduleFields (some s.app.Spec.Schedule) [])

/-- Builds the receiver from a time zone and an optional rule set. -/
def mkDownscaler (timeZone : String) (timeRules : Option v1alpha1.TimeRules) : Downscaler :=
  { app := { Spec := { Schedule := { TimeZone := timeZone },
                       DownscalerOptions := { TimeRules := timeRules } } } }

/-- A rule that passes the three per-rule checks. -/
def Rule.wellFormed (r : v1alpha1.Rule) : Prop :=
  sliceLen r.Namespaces ≠ 0 ∧ ':' ∈ r.UpscaleTime.data ∧ ':' ∈ r.DownscaleTime.data

/-- A rule that fails the three per-rule checks. -/
def Rule.allBroken (r : v1alpha1.Rule) : Prop :=
  sliceLen r.Namespaces = 0 ∧ ':' ∉ r.UpscaleTime.data ∧ ':' ∉ r.DownscaleTime.data

instance (r : v1alpha1.Rule) : Decidable (Rule.wellFormed r) := by
  unfold Rule.wellFormed; infer_instance

instance (r : v1alpha1.Rule) : Decidable (Rule.allBroken r) := by
  unfold Rule.allBroken; infer_instance

/-- Number of per-rule checks a rule violates. -/
def Rule.violations (r : v1alpha1.Rule) : Nat :=
  (if sliceLen r.Namespaces = 0 then 1 else 0) +
    (if ':' ∈ r.UpscaleTime.data then 0 else 1) +
    (if ':' ∈ r.DownscaleTime.data then 0 else 1)

/-- The rule of the spec's concrete scenario. -/
def goodRule : v1alpha1.Rule :=
  { Namespaces := some ["team-a"], UpscaleTime := "08:00", DownscaleTime := "20:00" }

/-- A rule that fails all three per-rule checks. -/
def badRule : v1alpha1.Rule :=
  { Namespaces := some [], UpscaleTime := "0800", DownscaleTime := "" }

/-- A sample with one well-formed rule (the spec's concrete scenario). -/
def berlin : Downscaler := mkDownscaler "Europe/Berlin" (some ⟨some [goodRule]⟩)

/-- What a resource without schedule and options blocks decodes to: the zero
values of both embedded structs. -/
def zeroValued : Downscaler := mkDownscaler "" none

end scheduler

/-! ## `internal/client`: the collaborator behind the strategies -/

namespace client

/-- The three workload kinds a strategy lists and patches; the Go code selects
the kind by the type of the list or object it hands to the client. -/
inductive Kind
  | deployment
  | statefulSet
  | hpa
  deriving DecidableEq, Repr

/-- An error value returned by the API client. -/
structure ApiError where
  msg : String
  deriving DecidableEq, Repr

/-- Modelled from the spec: a workload object as listed by the client
(`appsv1.Deployment`, `appsv1.StatefulSet`, `v2.HorizontalPodAutoscaler`).
`Scale` is the pointer field read by `Run`: `Spec.Replicas` for a Deployment
or StatefulSet, `Spec.MinReplicas` for an HPA; `none` is the nil pointer. The
value is an unbounded integer: how `Patch` narrows the Go `int` it is given to
the 32-bit field is not in the sources. -/
structure Object where
  Kind : Kind
  Namespace : String
  Name : String
  Scale : Option Int
  deriving DecidableEq, Repr

/-- One call made to the API client, with the error it returned. -/
inductive Call
  | get (ns : String) (kind : Kind) (err : Option ApiError)
  | patch (replicas : Int) (obj : Object) (err : Option ApiError)
  deriving DecidableEq, Repr

/-- Modelled from the spec: handle on `client.APIClient` (internal/client is
not part of the sources); the cluster it talks to is the `World` threaded
through `Get` and `Patch`. -/
structure APIClient where
  handle : Nat
  deriving DecidableEq, Repr

/-- A `logr.Logger` value, told apart by its name. -/
structure Logger where
  name : String
  deriving DecidableEq, Repr

/-- One record written to a log by a strategy: `slog.Error(msg, key, err)` or
`sc.log.Info(msg, nameKey, name, "namespace", ns, "before", before, "after",
after)`. -/
inductive LogRecord
  | slogError (msg : String) (key : String) (err : ApiError)
  | info (log : Logger) (msg : String) (nameKey : String) (name : String) (ns : String)
      (before : Int) (after : Int)
  deriving DecidableEq, Repr

/-- Everything outside a strategy: the objects held by the API server in
enumeration order, the outcomes of the API calls still to come (`faults`: one
entry per call, `none` or a missing entry for success), the calls made so far
and the log records written so far, oldest first. -/
structure World where
  objects : List Object
  faults : List (Option ApiError)
  calls : List Call
  logs : List LogRecord
  deriving DecidableEq, Repr

/-- Outcome scripted for the next API call. -/
def World.nextFault (w : World) : Option ApiError :=
  match w.faults with
  | [] => none
  | f :: _ => f

/-- The objects of one kind in one namespace, in enumeration order. -/
def World.list (w : World) (kind : Kind) (ns : String) : List Object :=
  w.objects.filter (fun o => decide (o.Kind = kind ∧ o.Namespace = ns))

/-- The object with its scale field set to `replicas`. -/
def Object.setScale (replicas : Int) (o : Object) : Object :=
  { o with Scale := some replicas }

/-- Whether `o` is the server-side object that `obj` names: the kind, the
name and the namespace agree. -/
def Object.sameKey (obj o : Object) : Bool :=
  decide (o.Kind = obj.Kind ∧ o.Namespace = obj.Namespace ∧ o.Name = obj.Name)

/-- Modelled from the spec: `Get(namespace, out)` of internal/client (not part
of the sources): list all objects of a kind in a namespace into the
caller's container, or fail with an error and list nothing. -/
def APIClient.Get (_c : APIClient) (ns : String) (kind : Kind) (w : World) :
    Option ApiError × List Object × World :=
  match w.nextFault with
  | some err =>
    (some err, [], { w with faults := w.faults.tail,
                            calls := w.calls ++ [Call.get ns kind (some err)] })
  | none =>
    (none, w.list kind ns, { w with faults := w.faults.tail,
                                    calls := w.calls ++ [Call.get ns kind none] })

/-- Modelled from the spec: `Patch(replicas, obj)` of internal/client (not part
of the sources): apply a scale change to one object, setting its scale field
server-side to `replicas`; on failure nothing changes. -/
def APIClient.Patch (_c : APIClient) (replicas : Int) (obj : Object) (w : World) :
    Option ApiError × World :=
  match w.nextFault with
  | some err =>
    (some err, { w with faults := w.faults.tail,
                        calls := w.calls ++ [Call.patch replicas obj (some err)] })
  | none =>
    (none, { w with objects := w.objects.map
                      (fun o => if obj.sameKey o then o.setScale replicas else o),
                    faults := w.faults.tail,
                    calls := w.calls ++ [Call.patch replicas obj none] })

/-- The API server keeps one object per kind, namespace and name. -/
def World.uniqueNames (w : World) : Prop :=
  (w.objects.map (fun o => (o.Kind, o.Namespace, o.Name))).Nodup

instance (w : World) : Decidable w.uniqueNames := by
  unfold World.uniqueNames; infer_instance

end client

/-! ## `internal/factory/factory.go` -/

namespace factory

open client pkgerrors.PkgError

def DEPLOYMENT : String := "deployments"
def STATEFULSET : String := "statefulset"
def HPA : String := "hpa"

/-- How a call of `Run` ends: it returns an error value (`none` is Go's nil),
or it stops with a nil pointer dereference. -/
inductive Outcome
  | returned (err : Option ApiError)
  | nilDereference
  deriving DecidableEq, Repr

structure ScaleDeployment where
  client : APIClient
  log : Logger
  deriving DecidableEq, Repr

structure ScaleHPA where
  client : APIClient
  log : Logger
  deriving DecidableEq, Repr

structure ScaleStatefulSet where
  client : APIClient
  log : Logger
  deriving DecidableEq, Repr

/-- The `for _, obj := range list.Items` loop shared, up to the name key of the
log record, by the three `Run` methods: read the scale through its pointer,
patch, log the failure and return it, or log the success and go on. -/
def patchEach (c : APIClient) (log : Logger) (nameKey : String) (ns : String)
    (replicas : Int) : List Object → World → Outcome × World
  | [], w => (Outcome.returned none, w)
  | obj :: rest, w =>
    match obj.Scale with
    | none => (Outcome.nilDereference, w)
    | some before =>
      match c.Patch replicas obj w with
      | (some err, w1) =>
        (Outcome.returned (some err),
          { w1 with logs := w1.logs ++
              [LogRecord.slogError "client" "error patching deployment" err] })
      | (none, w1) =>
        patchEach c log nameKey ns replicas rest
          { w1 with logs := w1.logs ++
              [LogRecord.info log "client" nameKey obj.Name ns before replicas] }

/-- Source `(*ScaleDeployment).Run(namespace, replicas)`. -/
def ScaleDeployment.Run (sc : ScaleDeployment) (ns : String) (replicas : Int) (w : World) :
    Outcome × World :=
  match sc.client.Get ns Kind.deployment w with
  | (some err, _, w1) => (Outcome.returned (some err), w1)
  | (none, deployments, w1) =>
    patchEach sc.client sc.log "patching deployment" ns replicas deployments w1

/-- Source `(*ScaleHPA).Run(namespace, replicas)`. -/
def ScaleHPA.Run (sc : ScaleHPA) (ns : String) (replicas : Int) (w : World) :
    Outcome × World :=
  match sc.client.Get ns Kind.hpa w with
  | (some err, _, w1) => (Outcome.returned (some err), w1)
  | (none, hpaList, w1) =>
    patchEach sc.client sc.log "patching hpa" ns replicas hpaList w1

/-- Source `(*ScaleStatefulSet).Run(namespace, replicas)`. -/
def ScaleStatefulSet.Run (sc : ScaleStatefulSet) (ns : String) (replicas : Int) (w : World) :
    Outcome × World :=
  match sc.client.Get ns Kind.statefulSet w with
  | (some err, _, w1) => (Outcome.returned (some err), w1)
  | (none, statefulSets, w1) =>
    patchEach sc.client sc.log "patching statefulSet" ns replicas statefulSets w1

/-- The interface `ResourceScaler`: one of the three strategies. -/
inductive ResourceScaler
  | deployment (sc : ScaleDeployment)
  | statefulSet (sc : ScaleStatefulSet)
  | hpa (sc : ScaleHPA)
  deriving DecidableEq, Repr

/-- Interface method `Run`, dispatched on the strategy. -/
def ResourceScaler.Run : ResourceScaler → String → Int → World → Outcome × World
  | ResourceScaler.deployment sc => sc.Run
  | ResourceScaler.statefulSet sc => sc.Run
  | ResourceScaler.hpa sc => sc.Run

/-- The kind of object a strategy lists and patches. -/
def ResourceScaler.kind : ResourceScaler → Kind
  | ResourceScaler.deployment _ => Kind.deployment
  | ResourceScaler.statefulSet _ => Kind.statefulSet
  | ResourceScaler.hpa _ => Kind.hpa

/-- Source `GetScaler(resourceType, client, log)`: the strategy and the error,
as the Go pair. `caseTable` is the Unicode lower-case mapping used by
`strings.ToLower` above ASCII. -/
def GetScaler (caseTable : Char → Char) (resourceType : String) (client : APIClient)
    (log : Logger) : Option ResourceScaler × Option pkgerrors.PkgError :=
  let lowered := strings.ToLower caseTable resourceType
  if lowered = DEPLOYMENT then
    (some (ResourceScaler.deployment { client := client, log := log }), none)
  else if lowered = STATEFULSET then
    (some (ResourceScaler.statefulSet { client := client, log := log }), none)
  else if lowered = HPA then
    (some (ResourceScaler.hpa { client := client, log := log }), none)
  else (none, some ErrListTypeNotFound)

/-- The client a strategy is bound to. -/
def ResourceScaler.client : ResourceScaler → APIClient
  | ResourceScaler.deployment sc => sc.client
  | ResourceScaler.statefulSet sc => sc.client
  | ResourceScaler.hpa sc => sc.client

/-- The logger a strategy is bound to. -/
def ResourceScaler.log : ResourceScaler → Logger
  | ResourceScaler.deployment sc => sc.log
  | ResourceScaler.statefulSet sc => sc.log
  | ResourceScaler.hpa sc => sc.log

/-- The key under which a strategy logs the name of a patched object. -/
def ResourceScaler.nameKey : ResourceScaler → String
  | ResourceScaler.deployment _ => "patching deployment"
  | ResourceScaler.statefulSet _ => "patching statefulSet"
  | ResourceScaler.hpa _ => "patching hpa"

/-- The success record `Run` logs for an object fetched as `o`. -/
def infoRecord (log : Logger) (nameKey ns : String) (replicas : Int) (o : Object) : LogRecord :=
  LogRecord.info log "client" nameKey o.Name ns (o.Scale.getD 0) replicas

/-- The world after the objects `done` have been patched with success one
after the other, each success logged. -/
def afterPatches (log : Logger) (nameKey ns : String) (replicas : Int) (done : List Object)
    (w : World) : World :=
  { objects := w.objects.map
      (fun o => if done.any (fun p => p.sameKey o) then o.setScale replicas else o),
    faults := w.faults.drop done.length,
    calls := w.calls ++ done.map (fun o => Call.patch replicas o none),
    logs := w.logs ++ done.map (infoRecord log nameKey ns replicas) }

/-- The world after the objects `done` have been patched with success and the
patch of `obj` has then failed with `e`. -/
def afterFailure (log : Logger) (nameKey ns : String) (replicas : Int) (done : List Object)
    (obj : Object) (e : ApiError) (w : World) : World :=
  { objects := (afterPatches log nameKey ns replicas done w).objects,
    faults := (afterPatches log nameKey ns replicas done w).faults.tail,
    calls := (afterPatches log nameKey ns replicas done w).calls ++
      [Call.patch replicas obj (some e)],
    logs := (afterPatches log nameKey ns replicas done w).logs ++
      [LogRecord.slogError "client" "error patching deployment" e] }

/-- The world right after a successful `Get`. -/
def afterGet (ns : String) (kind : Kind) (w : World) : World :=
  { w with faults := w.faults.tail, calls := w.calls ++ [Call.get ns kind none] }

/-- The arguments of a Patch call: requested replicas and object. -/
def patchTarget : Call → Option (Int × Object)
  | Call.patch replicas obj _ => some (replicas, obj)
  | Call.get _ _ _ => none

/-- The object of a Patch call that succeeded. -/
def patchedOk : Call → Option Object
  | Call.patch _ obj none => some obj
  | Call.patch _ _ (some _) => none
  | Call.get _ _ _ => none

/-- The fields (name, namespace, before, after) of a success record. -/
def successFields : LogRecord → Option (String × String × Int × Int)
  | LogRecord.info _ _ _ name ns before after => some (name, ns, before, after)
  | LogRecord.slogError _ _ _ => none

/-- The calls made between the worlds `w` and `w'`. -/
def newCalls (w w' : World) : List Call := w'.calls.drop w.calls.length

/-- The log records written between the worlds `w` and `w'`. -/
def newLogs (w w' : World) : List LogRecord := w'.logs.drop w.logs.length

/-- Three deployments of namespace `shop` at 5 replicas, next to a deployment
of another namespace and an HPA of the same name. -/
def sampleObjects : List Object :=
  [⟨Kind.deployment, "shop", "api", some 5⟩,
   ⟨Kind.deployment, "other", "api", some 7⟩,
   ⟨Kind.deployment, "shop", "web", some 5⟩,
   ⟨Kind.hpa, "shop", "api", some 5⟩,
   ⟨Kind.deployment, "shop", "worker", some 5⟩]

/-- A world holding `sampleObjects` with the given script of call outcomes. -/
def sampleWorld (faults : List (Option ApiError)) : World :=
  { objects := sampleObjects, faults := faults, calls := [], logs := [] }

/-- A world with two deployments in namespace `shop`, the second one with a
nil `Spec.Replicas`, and the given script of call outcomes. -/
def nilScaleWorld (faults : List (Option ApiError)) : World :=
  { objects := [⟨Kind.deployment, "shop", "api", some 5⟩,
                ⟨Kind.deployment, "shop", "web", none⟩,
                ⟨Kind.deployment, "shop", "worker", some 5⟩],
    faults := faults, calls := [], logs := [] }

/-- The error returned by a call. -/
def callErr : Call → Option ApiError
  | Call.get _ _ err => err
  | Call.patch _ _ err => err

/-- A world with three objects of one kind in namespace `shop`, all at 5, in
front of an object of the same name elsewhere, and the given script of call
outcomes. -/
def trioWorld (kind : Kind) (faults : List (Option ApiError)) : World :=
  { objects := [⟨kind, "shop", "a", some 5⟩, ⟨kind, "other", "a", some 9⟩,
                ⟨kind, "shop", "b", some 5⟩, ⟨kind, "shop", "c", some 5⟩],
    faults := faults, calls := [], logs := [] }

/-- An HPA strategy used in the samples. -/
def sampleHPA : ResourceScaler :=
  ResourceScaler.hpa { client := ⟨0⟩, log := ⟨"controller"⟩ }

/-- A StatefulSet strategy used in the samples. -/
def sampleStatefulSet : ResourceScaler :=
  ResourceScaler.statefulSet { client := ⟨0⟩, log := ⟨"controller"⟩ }

/-- A deployment strategy used in the samples. -/
def sampleScaler : ResourceScaler :=
  ResourceScaler.deployment { client := ⟨0⟩, log := ⟨"controller"⟩ }

end factory

/-! # Theorems -/

namespace scheduler
open pkgerrors.PkgError

/-! ### Helper lemmas: splitting and accumulation -/

theorem splitChars_length (sep : Char) (cs : List Char) :
    (strings.splitChars sep cs).length = cs.count sep + 1 := by
  induction cs with
  | nil => simp [strings.splitChars]
  | cons c cs ih =>
    by_cases h : c = sep
    · subst h
      simp [strings.splitChars, ih]
    · have hne : (c == sep) = false := by simpa using h
      cases hs : strings.splitChars sep cs with
      | nil => rw [hs] at ih; simp at ih
      | cons piece pieces =>
        rw [hs] at ih
        simp only [strings.splitChars, if_neg h, hs, List.count_cons, hne]
        simpa using ih

theorem split_length_eq_one_iff (s : String) (sep : Char) :
    (strings.Split s sep).length = 1 ↔ sep ∉ s.data := by
  unfold strings.Split
  rw [List.length_map, splitChars_length]
  constructor
  · intro h
    have h0 : s.data.count sep = 0 := by omega
    exact List.count_eq_zero.mp h0
  · intro h
    rw [List.count_eq_zero.mpr h]

theorem checkRule_append (childBase : field.Path) (index : Nat) (rule : v1alpha1.Rule)
    (errs : List field.Error) :
    checkRule childBase index rule errs = errs ++ checkRule childBase index rule [] := by
  unfold checkRule
  by_cases h1 : sliceLen rule.Namespaces = 0 <;>
  by_cases h2 : (strings.Split rule.UpscaleTime ':').length = 1 <;>
  by_cases h3 : (strings.Split rule.DownscaleTime ':').length = 1 <;>
  simp [h1, h2, h3]

theorem rangeRules_append (childBase : field.Path) (rules : List v1alpha1.Rule) :
    ∀ (index : Nat) (errs : List field.Error),
      rangeRules childBase index rules errs = errs ++ rangeRules childBase index rules [] := by
  induction rules with
  | nil => intro index errs; simp [rangeRules]
  | cons rule rest ih =>
    intro index errs
    simp only [rangeRules]
    rw [ih (index + 1) (checkRule childBase index rule errs),
      ih (index + 1) (checkRule childBase index rule []), checkRule_append childBase index rule errs,
      List.append_assoc]

theorem checkRule_wellFormed (childBase : field.Path) (index : Nat) (rule : v1alpha1.Rule)
    (h : Rule.wellFormed rule) : checkRule childBase index rule [] = [] := by
  obtain ⟨h1, h2, h3⟩ := h
  have h2' : ¬ (strings.Split rule.UpscaleTime ':').length = 1 := by
    rw [split_length_eq_one_iff]; exact fun hn => hn h2
  have h3' : ¬ (strings.Split rule.DownscaleTime ':').length = 1 := by
    rw [split_length_eq_one_iff]; exact fun hn => hn h3
  simp [checkRule, h1, h2', h3']

theorem rangeRules_wellFormed (childBase : field.Path) (rules : List v1alpha1.Rule)
    (h : ∀ r ∈ rules, Rule.wellFormed r) :
    ∀ index : Nat, rangeRules childBase index rules [] = [] := by
  induction rules with
  | nil => intro index; simp [rangeRules]
  | cons rule rest ih =>
    intro index
    simp only [rangeRules]
    rw [checkRule_wellFormed childBase index rule (h rule (List.mem_cons_self _ _))]
    exact ih (fun r hr => h r (List.mem_cons_of_mem _ hr)) (index + 1)

theorem checkRule_allBroken_length (childBase : field.Path) (index : Nat) (rule : v1alpha1.Rule)
    (h : Rule.allBroken rule) : (checkRule childBase index rule []).length = 3 := by
  obtain ⟨h1, h2, h3⟩ := h
  have h2' : (strings.Split rule.UpscaleTime ':').length = 1 :=
    (split_length_eq_one_iff _ _).mpr h2
  have h3' : (strings.Split rule.DownscaleTime ':').length = 1 :=
    (split_length_eq_one_iff _ _).mpr h3
  simp [checkRule, h1, h2', h3']

theorem rangeRules_allBroken_length (childBase : field.Path) (rules : List v1alpha1.Rule)
    (h : ∀ r ∈ rules, Rule.allBroken r) :
    ∀ index : Nat, (rangeRules childBase index rules []).length = 3 * rules.length := by
  induction rules with
  | nil => intro index; simp [rangeRules]
  | cons rule rest ih =>
    intro index
    simp only [rangeRules]
    rw [rangeRules_append, List.length_append,
      checkRule_allBroken_length childBase index rule (h rule (List.mem_cons_self _ _)),
      ih (fun r hr => h r (List.mem_cons_of_mem _ hr)) (index + 1), List.length_cons]
    omega

theorem processScheduleFields_wellFormed (sched : v1alpha1.Schedule)
    (h : '/' ∈ sched.TimeZone.data) : processScheduleFields (some sched) [] = [] := by
  have h1 : sched.TimeZone ≠ "" := by
    intro he; rw [he] at h; simp at h
  have h2 : ¬ (strings.Split sched.TimeZone '/').length = 1 := by
    rw [split_length_eq_one_iff]; exact fun hn => hn h
  simp [processScheduleFields, h1, h2]

theorem emitted_eq_accumulated (s : Downscaler) : s.emitted = s.accumulated := by
  unfold Downscaler.emitted Downscaler.Validate Downscaler.accumulated
  simp only []
  split
  · simp [List.map_map, Function.comp_def]
  · rename_i h
    have h0 : (processDownscalerOptions (some s.app.Spec.DownscalerOptions)
        (processScheduleFields (some s.app.Spec.Schedule) [])).length = 0 := by omega
    simp [List.length_eq_zero.mp h0]

theorem validate_fst (s : Downscaler) :
    s.Validate.1 = decide (s.accumulated = []) := by
  unfold Downscaler.Validate Downscaler.accumulated
  simp only []
  split
  · rename_i h
    have hne : processDownscalerOptions (some s.app.Spec.DownscalerOptions)
        (processScheduleFields (some s.app.Spec.Schedule) []) ≠ [] := by
      intro he; rw [he] at h; simp at h
    simp [hne]
  · rename_i h
    have h0 : (processDownscalerOptions (some s.app.Spec.DownscalerOptions)
        (processScheduleFields (some s.app.Spec.Schedule) [])).length = 0 := by omega
    simp [List.length_eq_zero.mp h0]

theorem accumulated_rules (s : Downscaler) (timeRules : v1alpha1.TimeRules)
    (rules : List v1alpha1.Rule)
    (htr : s.app.Spec.DownscalerOptions.TimeRules = some timeRules)
    (hr : timeRules.Rules = some rules) :
    s.accumulated = processScheduleFields (some s.app.Spec.Schedule) [] ++
      rangeRules ((field.NewPath Spec).Child DownscalerOptions) 0 rules [] := by
  unfold Downscaler.accumulated
  simp only [processDownscalerOptions, htr, hr]
  exact rangeRules_append _ _ _ _

/-- The errors recorded for the rule at position `index`, with their field
paths rendered. -/
theorem checkRule_rendered (index : Nat) (rule : v1alpha1.Rule) :
    checkRule ((field.NewPath Spec).Child DownscalerOptions) index rule [] =
      (if sliceLen rule.Namespaces = 0 then
        [⟨"spec.downscalerOptions.timeRules[" ++ toString index ++ "].namespaces",
          field.BadValue.namespaces rule.Namespaces, ErrEmptyNamespaces⟩] else []) ++
      (if ':' ∉ rule.UpscaleTime.data then
        [⟨"spec.downscalerOptions.timeRules[" ++ toString index ++ "].namespaces.upscaleTime",
          field.BadValue.str rule.UpscaleTime, ErrMalforedUpscaleTime⟩] else []) ++
      (if ':' ∉ rule.DownscaleTime.data then
        [⟨"spec.downscalerOptions.timeRules[" ++ toString index ++ "].namespaces.downscaleTime",
          field.BadValue.str rule.DownscaleTime, ErrMalforedDownscaleTime⟩] else []) := by
  have l1 : 0 < "spec".length := by decide
  have l2 : 0 < "downscalerOptions".length := by decide
  have l3 : 0 < "timeRules".length := by decide
  have l4 : 0 < "namespaces".length := by decide
  have l5 : 0 < "upscaleTime".length := by decide
  have l6 : 0 < "downscaleTime".length := by decide
  have p1 : (((((field.NewPath Spec).Child DownscalerOptions).Child TimeRules).Index
      index).Child Namespaces).String =
      "spec.downscalerOptions.timeRules[" ++ toString index ++ "].namespaces" := by
    apply String.ext
    simp [field.Path.String, field.NewPath, field.Path.Child, field.Path.Index, Spec,
      DownscalerOptions, TimeRules, Namespaces, String.data_append, l1, l2, l3, l4]
  have p2 : ((((((field.NewPath Spec).Child DownscalerOptions).Child TimeRules).Index
      index).Child Namespaces).Child UpscaleTime).String =
      "spec.downscalerOptions.timeRules[" ++ toString index ++ "].namespaces.upscaleTime" := by
    apply String.ext
    simp [field.Path.String, field.NewPath, field.Path.Child, field.Path.Index, Spec,
      DownscalerOptions, TimeRules, Namespaces, UpscaleTime, String.data_append, l1, l2, l3,
      l4, l5]
  have p3 : ((((((field.NewPath Spec).Child DownscalerOptions).Child TimeRules).Index
      index).Child Namespaces).Child DownscaleTime).String =
      "spec.downscalerOptions.timeRules[" ++ toString index ++ "].namespaces.downscaleTime" := by
    apply String.ext
    simp [field.Path.String, field.NewPath, field.Path.Child, field.Path.Index, Spec,
      DownscalerOptions, TimeRules, Namespaces, DownscaleTime, String.data_append, l1, l2, l3,
      l4, l6]
  unfold checkRule
  simp only [field.Invalid, p1, p2, p3, split_length_eq_one_iff]
  by_cases h1 : sliceLen rule.Namespaces = 0 <;>
  by_cases h2 : ':' ∈ rule.UpscaleTime.data <;>
  by_cases h3 : ':' ∈ rule.DownscaleTime.data <;>
  simp [h1, h2, h3]

/-! ### Claims about `Validate` -/

/-- C1: for every well-formed configuration (time zone containing a slash,
non-nil timeRules, non-nil rules slice, every rule with non-empty namespaces
and colon-containing times) `Validate` returns true, and the list of errors it
accumulates and the list it emits are both empty. -/
theorem validate_wellFormed (s : Downscaler) (timeRules : v1alpha1.TimeRules)
    (rules : List v1alpha1.Rule)
    (hz : '/' ∈ s.app.Spec.Schedule.TimeZone.data)
    (htr : s.app.Spec.DownscalerOptions.TimeRules = some timeRules)
    (hr : timeRules.Rules = some rules)
    (hrules : ∀ r ∈ rules, Rule.wellFormed r) :
    s.Validate = (true, []) ∧ s.accumulated = [] ∧ s.emitted = [] := by
  have hacc : s.accumulated = [] := by
    rw [accumulated_rules s timeRules rules htr hr, processScheduleFields_wellFormed _ hz,
      rangeRules_wellFormed _ rules hrules 0]
    rfl
  have hem : s.emitted = [] := by rw [emitted_eq_accumulated, hacc]
  refine ⟨?_, hacc, hem⟩
  have h1 : s.Validate.1 = true := by rw [validate_fst, hacc]; simp
  have h2 : s.Validate.2 = [] := by
    have := hem
    unfold Downscaler.emitted at this
    exact List.map_eq_nil_iff.mp this
  exact Prod.ext h1 h2

/-- Witness for C1: the spec's concrete scenario (Europe/Berlin, one rule for
team-a from 08:00 to 20:00). -/
theorem validate_wellFormed_witness :
    berlin.Validate = (true, []) ∧ berlin.accumulated = [] ∧ berlin.emitted = [] :=
  validate_wellFormed berlin ⟨some [goodRule]⟩ [goodRule] (by decide) rfl rfl (by decide)

/-- C2: `Validate` returns true exactly when the list accumulated by
`processScheduleFields` followed by `processDownscalerOptions` is empty, it
returns false exactly when that list holds an error, and the errors it writes
to the log are that list, every error in accumulation order. -/
theorem validate_iff_accumulated_empty (s : Downscaler) :
    (s.Validate.1 = true ↔ s.accumulated = []) ∧
    (s.Validate.1 = false ↔ ∃ e, e ∈ s.accumulated) ∧
    s.emitted = s.accumulated ∧
    s.Validate.2 = s.accumulated.map
      (fun err => { msg := "validation failed", key := "err", err := err }) := by
  refine ⟨?_, ?_, emitted_eq_accumulated s, ?_⟩
  · rw [validate_fst]; simp
  · rw [validate_fst]
    simp only [decide_eq_false_iff_not]
    constructor
    · intro h
      cases hacc : s.accumulated with
      | nil => exact absurd hacc h
      | cons e es => exact ⟨e, List.mem_cons_self _ _⟩
    · rintro ⟨e, he⟩ hnil
      rw [hnil] at he
      simp at he
  · unfold Downscaler.Validate Downscaler.accumulated
    simp only []
    split
    · rfl
    · rename_i h
      have h0 : (processDownscalerOptions (some s.app.Spec.DownscalerOptions)
          (processScheduleFields (some s.app.Spec.Schedule) [])).length = 0 := by omega
      simp [List.length_eq_zero.mp h0]

/-- C3, counterexample: the resource without schedule and options blocks (both
embedded structs at their zero value) makes `Validate` emit two errors, at
spec.schedule.timeZone and spec.downscalerOptions.timeRules; none sits at
spec.schedule or spec.downscalerOptions, and the stream is not a single error. -/
theorem validate_missing_block_counterexample :
    zeroValued.Validate.1 = false ∧
    zeroValued.emitted =
      [⟨"spec.schedule.timeZone", field.BadValue.str "", ErrMalformedTimeZone⟩,
       ⟨"spec.downscalerOptions.timeRules", field.BadValue.timeRules none,
         ErrTimeRulesBlockNotProvided⟩] ∧
    ¬ (∃ e, zeroValued.emitted = [e]) ∧
    (∀ e ∈ zeroValued.emitted, e.Field ≠ "spec.schedule" ∧ e.Field ≠ "spec.downscalerOptions") := by
  have hem : zeroValued.emitted =
      [⟨"spec.schedule.timeZone", field.BadValue.str "", ErrMalformedTimeZone⟩,
       ⟨"spec.downscalerOptions.timeRules", field.BadValue.timeRules none,
         ErrTimeRulesBlockNotProvided⟩] := by decide
  refine ⟨by decide, hem, ?_, by decide⟩
  rintro ⟨e, he⟩
  rw [hem] at he
  simp at he

/-- C3, amended: for every configuration whose time zone contains a slash, a
nil timeRules block makes `Validate` return false and emit exactly one error,
at spec.downscalerOptions.timeRules, and a nil rules slice makes it return
false and emit exactly one error, at spec.downscalerOptions.timeRules.rules.
A nil schedule or nil options pointer never reaches `Validate`; given directly
to `processScheduleFields` or `processDownscalerOptions` with an empty list,
each records exactly one error, at spec.schedule or spec.downscalerOptions. -/
theorem validate_missing_block (s : Downscaler)
    (hz : '/' ∈ s.app.Spec.Schedule.TimeZone.data) :
    (s.app.Spec.DownscalerOptions.TimeRules = none →
      s.Validate.1 = false ∧
      s.emitted = [⟨"spec.downscalerOptions.timeRules", field.BadValue.timeRules none,
        ErrTimeRulesBlockNotProvided⟩]) ∧
    (∀ timeRules : v1alpha1.TimeRules,
      s.app.Spec.DownscalerOptions.TimeRules = some timeRules → timeRules.Rules = none →
      s.Validate.1 = false ∧
      s.emitted = [⟨"spec.downscalerOptions.timeRules.rules", field.BadValue.rules none,
        ErrRulesNotProvided⟩]) ∧
    processScheduleFields none [] =
      [⟨"spec.schedule", field.BadValue.schedule none, ErrNilInclude⟩] ∧
    processDownscalerOptions none [] =
      [⟨"spec.downscalerOptions", field.BadValue.options none, ErrNilInclude⟩] := by
  have hs := processScheduleFields_wellFormed _ hz
  refine ⟨?_, ?_, by decide, by decide⟩
  · intro htr
    have hacc : s.accumulated = [⟨"spec.downscalerOptions.timeRules",
        field.BadValue.timeRules none, ErrTimeRulesBlockNotProvided⟩] := by
      unfold Downscaler.accumulated
      rw [hs]
      simp only [processDownscalerOptions, htr, List.nil_append]
      decide
    refine ⟨?_, ?_⟩
    · rw [validate_fst, hacc]; simp
    · rw [emitted_eq_accumulated, hacc]
  · intro timeRules htr hr
    have hacc : s.accumulated = [⟨"spec.downscalerOptions.timeRules.rules",
        field.BadValue.rules none, ErrRulesNotProvided⟩] := by
      unfold Downscaler.accumulated
      rw [hs]
      simp only [processDownscalerOptions, htr, hr, List.nil_append]
      decide
    refine ⟨?_, ?_⟩
    · rw [validate_fst, hacc]; simp
    · rw [emitted_eq_accumulated, hacc]

/-- Witness for C3 (amended): Europe/Berlin with a nil timeRules block. -/
theorem validate_missing_block_witness :
    (mkDownscaler "Europe/Berlin" none).Validate.1 = false ∧
    (mkDownscaler "Europe/Berlin" none).emitted =
      [⟨"spec.downscalerOptions.timeRules", field.BadValue.timeRules none,
        ErrTimeRulesBlockNotProvided⟩] :=
  (validate_missing_block (mkDownscaler "Europe/Berlin" none) (by decide)).1 rfl

/-- C4, counterexample: with N = 0 (an empty, non-nil rule set) and a valid
time zone `Validate` returns true, not false. -/
theorem validate_allBroken_counterexample :
    (∀ r ∈ ([] : List v1alpha1.Rule), Rule.allBroken r) ∧
    (mkDownscaler "Europe/Berlin" (some ⟨some []⟩)).Validate.1 = true ∧
    ¬ ((mkDownscaler "Europe/Berlin" (some ⟨some []⟩)).Validate.1 = false) := by
  decide

/-- C4, amended: for every N and every rule set of N rules that each have
empty namespaces, an upscaleTime without colon and a downscaleTime without
colon, `Validate` emits the schedule block's errors followed by exactly 3*N
per-rule errors, and it returns false when N is at least 1. -/
theorem validate_allBroken (s : Downscaler) (timeRules : v1alpha1.TimeRules)
    (rules : List v1alpha1.Rule)
    (htr : s.app.Spec.DownscalerOptions.TimeRules = some timeRules)
    (hr : timeRules.Rules = some rules)
    (hrules : ∀ r ∈ rules, Rule.allBroken r) :
    s.emitted = processScheduleFields (some s.app.Spec.Schedule) [] ++
      rangeRules ((field.NewPath Spec).Child DownscalerOptions) 0 rules [] ∧
    (rangeRules ((field.NewPath Spec).Child DownscalerOptions) 0 rules []).length
      = 3 * rules.length ∧
    s.emitted.length =
      (processScheduleFields (some s.app.Spec.Schedule) []).length + 3 * rules.length ∧
    (1 ≤ rules.length → s.Validate.1 = false) := by
  have hacc := accumulated_rules s timeRules rules htr hr
  have hlen := rangeRules_allBroken_length ((field.NewPath Spec).Child DownscalerOptions)
    rules hrules 0
  refine ⟨?_, hlen, ?_, ?_⟩
  · rw [emitted_eq_accumulated, hacc]
  · rw [emitted_eq_accumulated, hacc, List.length_append, hlen]
  · intro hN
    rw [validate_fst, hacc]
    have hne : processScheduleFields (some s.app.Spec.Schedule) [] ++
        rangeRules ((field.NewPath Spec).Child DownscalerOptions) 0 rules [] ≠ [] := by
      intro he
      have hl := congrArg List.length he
      rw [List.length_append, hlen, List.length_nil] at hl
      omega
    simp [hne]

/-- Witness for C4 (amended): two rules failing all three checks under a
malformed time zone give one schedule error and six per-rule errors. -/
theorem validate_allBroken_witness :
    (mkDownscaler "UTC" (some ⟨some [badRule, badRule]⟩)).emitted.length = 1 + 3 * 2 ∧
    (mkDownscaler "UTC" (some ⟨some [badRule, badRule]⟩)).Validate.1 = false :=
  have h := validate_allBroken (mkDownscaler "UTC" (some ⟨some [badRule, badRule]⟩))
    ⟨some [badRule, badRule]⟩ [badRule, badRule] rfl rfl (by decide)
  ⟨h.2.2.1, h.2.2.2 (by decide)⟩

/-- C5: at the one-rule configuration whose rule has an empty namespaces list,
`processDownscalerOptions` records the EmptyNamespaces error at
spec.downscalerOptions.timeRules[0].namespaces: the rules segment, present in
the path of the nil-rules error, is missing before the subscript. -/
theorem emptyNamespaces_path_at_failing_input :
    processDownscalerOptions (some ⟨some ⟨some
        [⟨some [], "08:00", "20:00"⟩]⟩⟩) [] =
      [⟨"spec.downscalerOptions.timeRules[0].namespaces", field.BadValue.namespaces (some []),
        ErrEmptyNamespaces⟩] ∧
    "spec.downscalerOptions.timeRules[0].namespaces" ≠
      "spec.downscalerOptions.timeRules.rules[0].namespaces" ∧
    processDownscalerOptions (some ⟨some ⟨none⟩⟩) [] =
      [⟨"spec.downscalerOptions.timeRules.rules", field.BadValue.rules none,
        ErrRulesNotProvided⟩] := by
  decide

/-! ### Helper lemmas: the two blocks in closed form -/

theorem processScheduleFields_eq (sched : v1alpha1.Schedule) (errs : List field.Error) :
    processScheduleFields (some sched) errs =
      if '/' ∈ sched.TimeZone.data then errs
      else errs ++ [⟨"spec.schedule.timeZone", field.BadValue.str sched.TimeZone,
        ErrMalformedTimeZone⟩] := by
  have hp : (((field.NewPath Spec).Child Schedule).Child TimeZone).String =
      "spec.schedule.timeZone" := by decide
  by_cases h : '/' ∈ sched.TimeZone.data
  · have h1 : sched.TimeZone ≠ "" := by
      intro he; rw [he] at h; simp at h
    have h2 : ¬ (strings.Split sched.TimeZone '/').length = 1 := by
      rw [split_length_eq_one_iff]; exact fun hn => hn h
    simp [processScheduleFields, h, h1, h2]
  · have h2 : (strings.Split sched.TimeZone '/').length = 1 :=
      (split_length_eq_one_iff _ _).mpr h
    simp [processScheduleFields, h, h2, field.Invalid, hp]

theorem rangeRules_flatMap (childBase : field.Path) (rules : List v1alpha1.Rule) :
    ∀ (index : Nat) (errs : List field.Error),
      rangeRules childBase index rules errs =
        errs ++ (rules.enumFrom index).flatMap (fun p => checkRule childBase p.1 p.2 []) := by
  induction rules with
  | nil => intro index errs; simp [rangeRules]
  | cons rule rest ih =>
    intro index errs
    simp only [rangeRules, List.enumFrom_cons, List.flatMap_cons]
    rw [ih (index + 1), checkRule_append childBase index rule errs, List.append_assoc]

theorem processDownscalerOptions_rules (opts : v1alpha1.DownscalerOptions)
    (timeRules : v1alpha1.TimeRules) (rules : List v1alpha1.Rule)
    (htr : opts.TimeRules = some timeRules) (hr : timeRules.Rules = some rules)
    (errs : List field.Error) :
    processDownscalerOptions (some opts) errs =
      errs ++ rules.enum.flatMap
        (fun p => checkRule ((field.NewPath Spec).Child DownscalerOptions) p.1 p.2 []) := by
  simp only [processDownscalerOptions, htr, hr]
  exact rangeRules_flatMap _ rules 0 errs

theorem checkRule_length (childBase : field.Path) (index : Nat) (rule : v1alpha1.Rule) :
    (checkRule childBase index rule []).length = Rule.violations rule := by
  unfold checkRule Rule.violations
  simp only [split_length_eq_one_iff]
  by_cases h1 : sliceLen rule.Namespaces = 0 <;>
  by_cases h2 : ':' ∈ rule.UpscaleTime.data <;>
  by_cases h3 : ':' ∈ rule.DownscaleTime.data <;>
  simp [h1, h2, h3]

theorem checkRule_details (childBase : field.Path) (index : Nat) (rule : v1alpha1.Rule) :
    (checkRule childBase index rule []).map (fun e => e.Detail) =
      (if sliceLen rule.Namespaces = 0 then [ErrEmptyNamespaces] else []) ++
      (if ':' ∈ rule.UpscaleTime.data then [] else [ErrMalforedUpscaleTime]) ++
      (if ':' ∈ rule.DownscaleTime.data then [] else [ErrMalforedDownscaleTime]) := by
  unfold checkRule
  simp only [split_length_eq_one_iff]
  by_cases h1 : sliceLen rule.Namespaces = 0 <;>
  by_cases h2 : ':' ∈ rule.UpscaleTime.data <;>
  by_cases h3 : ':' ∈ rule.DownscaleTime.data <;>
  simp [h1, h2, h3, field.Invalid]

/-! ### Claims about the two blocks -/

/-- C11: for every non-nil schedule `processScheduleFields` records exactly one
error, MalformedTimeZone at spec.schedule.timeZone, when the time zone is
empty or has no slash, and records nothing otherwise. With rules that all pass
their checks, the time zone UTC makes `Validate` return false with exactly
that one error and Europe/Berlin makes it return true with none. -/
theorem processScheduleFields_timeZone (sched : v1alpha1.Schedule) (errs : List field.Error)
    (rules : List v1alpha1.Rule) (hrules : ∀ r ∈ rules, Rule.wellFormed r) :
    ((sched.TimeZone = "" ∨ '/' ∉ sched.TimeZone.data) →
      processScheduleFields (some sched) errs =
        errs ++ [⟨"spec.schedule.timeZone", field.BadValue.str sched.TimeZone,
          ErrMalformedTimeZone⟩]) ∧
    (¬ (sched.TimeZone = "" ∨ '/' ∉ sched.TimeZone.data) →
      processScheduleFields (some sched) errs = errs) ∧
    (mkDownscaler "UTC" (some ⟨some rules⟩)).Validate.1 = false ∧
    (mkDownscaler "UTC" (some ⟨some rules⟩)).emitted =
      [⟨"spec.schedule.timeZone", field.BadValue.str "UTC", ErrMalformedTimeZone⟩] ∧
    (mkDownscaler "Europe/Berlin" (some ⟨some rules⟩)).Validate = (true, []) := by
  have hrng := rangeRules_wellFormed ((field.NewPath Spec).Child DownscalerOptions) rules
    hrules 0
  have haccU : (mkDownscaler "UTC" (some ⟨some rules⟩)).accumulated =
      [⟨"spec.schedule.timeZone", field.BadValue.str "UTC", ErrMalformedTimeZone⟩] := by
    rw [accumulated_rules _ ⟨some rules⟩ rules rfl rfl, hrng, List.append_nil]
    show processScheduleFields (some ⟨"UTC"⟩) [] = _
    decide
  have haccB : (mkDownscaler "Europe/Berlin" (some ⟨some rules⟩)).accumulated = [] := by
    rw [accumulated_rules _ ⟨some rules⟩ rules rfl rfl, hrng, List.append_nil]
    show processScheduleFields (some ⟨"Europe/Berlin"⟩) [] = _
    decide
  refine ⟨?_, ?_, ?_, ?_, ?_⟩
  · intro h
    have hno : '/' ∉ sched.TimeZone.data := by
      rcases h with h | h
      · rw [h]; simp
      · exact h
    rw [processScheduleFields_eq, if_neg hno]
  · intro h
    have hyes : '/' ∈ sched.TimeZone.data := by
      by_contra hc
      exact h (Or.inr hc)
    rw [processScheduleFields_eq, if_pos hyes]
  · rw [validate_fst, haccU]; simp
  · rw [emitted_eq_accumulated, haccU]
  · have h1 : (mkDownscaler "Europe/Berlin" (some ⟨some rules⟩)).Validate.1 = true := by
      rw [validate_fst, haccB]; simp
    have h2 : (mkDownscaler "Europe/Berlin" (some ⟨some rules⟩)).Validate.2 = [] := by
      have hem := emitted_eq_accumulated (mkDownscaler "Europe/Berlin" (some ⟨some rules⟩))
      rw [haccB] at hem
      unfold Downscaler.emitted at hem
      exact List.map_eq_nil_iff.mp hem
    exact Prod.ext h1 h2

/-- Witness for C11: the one-rule scenario of the spec, and the time zone UTC
given to `processScheduleFields`. -/
theorem processScheduleFields_timeZone_witness :
    processScheduleFields (some ⟨"UTC"⟩) [] =
      [⟨"spec.schedule.timeZone", field.BadValue.str "UTC", ErrMalformedTimeZone⟩] ∧
    (mkDownscaler "UTC" (some ⟨some [goodRule]⟩)).Validate.1 = false :=
  have h := processScheduleFields_timeZone ⟨"UTC"⟩ [] [goodRule] (by decide)
  ⟨h.1 (Or.inr (by decide)), h.2.2.1⟩

/-- C12: the three per-rule checks are independent. The errors recorded for a
rule are EmptyNamespaces iff its namespaces list has length 0,
MalformedUpscaleTime iff its upscaleTime has no colon (the empty string
included), MalformedDownscaleTime iff its downscaleTime has no colon, in that
order, between 0 and 3 of them, appended to the errors already recorded. -/
theorem checkRule_independent (childBase : field.Path) (index : Nat) (rule : v1alpha1.Rule)
    (rest : List v1alpha1.Rule) (errs : List field.Error) :
    checkRule childBase index rule errs = errs ++ checkRule childBase index rule [] ∧
    rangeRules childBase index (rule :: rest) errs =
      rangeRules childBase (index + 1) rest (errs ++ checkRule childBase index rule []) ∧
    (checkRule childBase index rule []).map (fun e => e.Detail) =
      (if sliceLen rule.Namespaces = 0 then [ErrEmptyNamespaces] else []) ++
      (if ':' ∈ rule.UpscaleTime.data then [] else [ErrMalforedUpscaleTime]) ++
      (if ':' ∈ rule.DownscaleTime.data then [] else [ErrMalforedDownscaleTime]) ∧
    (ErrEmptyNamespaces ∈ (checkRule childBase index rule []).map (fun e => e.Detail) ↔
      sliceLen rule.Namespaces = 0) ∧
    (ErrMalforedUpscaleTime ∈ (checkRule childBase index rule []).map (fun e => e.Detail) ↔
      ':' ∉ rule.UpscaleTime.data) ∧
    (ErrMalforedDownscaleTime ∈ (checkRule childBase index rule []).map (fun e => e.Detail) ↔
      ':' ∉ rule.DownscaleTime.data) ∧
    (rule.UpscaleTime = "" →
      ErrMalforedUpscaleTime ∈ (checkRule childBase index rule []).map (fun e => e.Detail)) ∧
    (checkRule childBase index rule []).length ≤ 3 := by
  have hd := checkRule_details childBase index rule
  have hup : ErrMalforedUpscaleTime ∈
      (checkRule childBase index rule []).map (fun e => e.Detail) ↔
      ':' ∉ rule.UpscaleTime.data := by
    rw [hd]
    by_cases h1 : sliceLen rule.Namespaces = 0 <;>
    by_cases h2 : ':' ∈ rule.UpscaleTime.data <;>
    by_cases h3 : ':' ∈ rule.DownscaleTime.data <;>
    simp [h1, h2, h3]
  refine ⟨checkRule_append childBase index rule errs, ?_, hd, ?_, hup, ?_, ?_, ?_⟩
  · simp only [rangeRules]
    rw [checkRule_append childBase index rule errs]
  · rw [hd]
    by_cases h1 : sliceLen rule.Namespaces = 0 <;>
    by_cases h2 : ':' ∈ rule.UpscaleTime.data <;>
    by_cases h3 : ':' ∈ rule.DownscaleTime.data <;>
    simp [h1, h2, h3]
  · rw [hd]
    by_cases h1 : sliceLen rule.Namespaces = 0 <;>
    by_cases h2 : ':' ∈ rule.UpscaleTime.data <;>
    by_cases h3 : ':' ∈ rule.DownscaleTime.data <;>
    simp [h1, h2, h3]
  · intro he
    apply hup.mpr
    rw [he]
    simp
  · rw [checkRule_length]
    unfold Rule.violations
    split_ifs <;> omega

/-- Witness for C12: a rule with an empty upscaleTime and otherwise valid
fields gets the MalformedUpscaleTime error and no other. -/
theorem checkRule_independent_witness :
    (checkRule (field.NewPath Spec) 0 ⟨some ["team-a"], "", "20:00"⟩ []).map
      (fun e => e.Detail) = [ErrMalforedUpscaleTime] :=
  (checkRule_independent (field.NewPath Spec) 0 ⟨some ["team-a"], "", "20:00"⟩ [] []).2.2.1

/-- C13: `processDownscalerOptions` stops at a missing substructure. For nil
options it appends exactly one NilInclude error at spec.downscalerOptions; for
nil timeRules exactly one TimeRulesBlockNotProvided error at
spec.downscalerOptions.timeRules; for a nil rules slice exactly one
RulesNotProvided error at spec.downscalerOptions.timeRules.rules. The errors
already in the list stay as they are and no per-rule error is added. -/
theorem processDownscalerOptions_shortCircuit (errs : List field.Error) :
    processDownscalerOptions none errs =
      errs ++ [⟨"spec.downscalerOptions", field.BadValue.options none, ErrNilInclude⟩] ∧
    (∀ opts : v1alpha1.DownscalerOptions, opts.TimeRules = none →
      processDownscalerOptions (some opts) errs =
        errs ++ [⟨"spec.downscalerOptions.timeRules", field.BadValue.timeRules none,
          ErrTimeRulesBlockNotProvided⟩]) ∧
    (∀ (opts : v1alpha1.DownscalerOptions) (timeRules : v1alpha1.TimeRules),
      opts.TimeRules = some timeRules → timeRules.Rules = none →
      processDownscalerOptions (some opts) errs =
        errs ++ [⟨"spec.downscalerOptions.timeRules.rules", field.BadValue.rules none,
          ErrRulesNotProvided⟩]) := by
  have p0 : ((field.NewPath Spec).Child DownscalerOptions).String =
      "spec.downscalerOptions" := by decide
  have p1 : (((field.NewPath Spec).Child DownscalerOptions).Child TimeRules).String =
      "spec.downscalerOptions.timeRules" := by decide
  have p2 : ((((field.NewPath Spec).Child DownscalerOptions).Child TimeRules).Child
      Rules).String = "spec.downscalerOptions.timeRules.rules" := by decide
  refine ⟨?_, ?_, ?_⟩
  · simp [processDownscalerOptions, field.Invalid, p0]
  · intro opts h
    simp [processDownscalerOptions, h, field.Invalid, p1]
  · intro opts timeRules h1 h2
    simp [processDownscalerOptions, h1, h2, field.Invalid, p2]

/-- Witness for C13: a list that already holds the time zone error, then
options whose timeRules pointer is nil. -/
theorem processDownscalerOptions_shortCircuit_witness :
    processDownscalerOptions (some ⟨none⟩)
        [⟨"spec.schedule.timeZone", field.BadValue.str "UTC", ErrMalformedTimeZone⟩] =
      [⟨"spec.schedule.timeZone", field.BadValue.str "UTC", ErrMalformedTimeZone⟩,
       ⟨"spec.downscalerOptions.timeRules", field.BadValue.timeRules none,
         ErrTimeRulesBlockNotProvided⟩] :=
  (processDownscalerOptions_shortCircuit
    [⟨"spec.schedule.timeZone", field.BadValue.str "UTC", ErrMalformedTimeZone⟩]).2.1
    ⟨none⟩ rfl

/-! ### Helper lemmas: where an emitted error can come from -/

theorem checkRule_mem (index : Nat) (rule : v1alpha1.Rule) (e : field.Error)
    (h : e ∈ checkRule ((field.NewPath Spec).Child DownscalerOptions) index rule []) :
    e = ⟨"spec.downscalerOptions.timeRules[" ++ toString index ++ "].namespaces",
        field.BadValue.namespaces rule.Namespaces, ErrEmptyNamespaces⟩ ∨
    e = ⟨"spec.downscalerOptions.timeRules[" ++ toString index ++ "].namespaces.upscaleTime",
        field.BadValue.str rule.UpscaleTime, ErrMalforedUpscaleTime⟩ ∨
    e = ⟨"spec.downscalerOptions.timeRules[" ++ toString index ++ "].namespaces.downscaleTime",
        field.BadValue.str rule.DownscaleTime, ErrMalforedDownscaleTime⟩ := by
  rw [checkRule_rendered] at h
  simp only [List.mem_append] at h
  rcases h with (h | h) | h
  · split at h
    · left; simpa using h
    · simp at h
  · split at h
    · right; left; simpa using h
    · simp at h
  · split at h
    · right; right; simpa using h
    · simp at h

theorem accumulated_mem (s : Downscaler) (e : field.Error) (h : e ∈ s.accumulated) :
    e = ⟨"spec.schedule.timeZone", field.BadValue.str s.app.Spec.Schedule.TimeZone,
        ErrMalformedTimeZone⟩ ∨
    e = ⟨"spec.downscalerOptions.timeRules", field.BadValue.timeRules none,
        ErrTimeRulesBlockNotProvided⟩ ∨
    e = ⟨"spec.downscalerOptions.timeRules.rules", field.BadValue.rules none,
        ErrRulesNotProvided⟩ ∨
    ∃ (index : Nat) (rule : v1alpha1.Rule),
      e ∈ checkRule ((field.NewPath Spec).Child DownscalerOptions) index rule [] := by
  have p1 : (((field.NewPath Spec).Child DownscalerOptions).Child TimeRules).String =
      "spec.downscalerOptions.timeRules" := by decide
  have p2 : ((((field.NewPath Spec).Child DownscalerOptions).Child TimeRules).Child
      Rules).String = "spec.downscalerOptions.timeRules.rules" := by decide
  have hsched : ∀ x ∈ processScheduleFields (some s.app.Spec.Schedule) [],
      x = ⟨"spec.schedule.timeZone", field.BadValue.str s.app.Spec.Schedule.TimeZone,
        ErrMalformedTimeZone⟩ := by
    intro x hx
    rw [processScheduleFields_eq] at hx
    split at hx
    · simp at hx
    · simpa using hx
  unfold Downscaler.accumulated at h
  cases htr : s.app.Spec.DownscalerOptions.TimeRules with
  | none =>
    simp only [processDownscalerOptions, htr, List.mem_append, List.mem_singleton] at h
    rcases h with h | h
    · left; exact hsched e h
    · right; left
      rw [h]
      simp [field.Invalid, p1]
  | some timeRules =>
    cases hr : timeRules.Rules with
    | none =>
      simp only [processDownscalerOptions, htr, hr, List.mem_append, List.mem_singleton] at h
      rcases h with h | h
      · left; exact hsched e h
      · right; right; left
        rw [h]
        simp [field.Invalid, p2]
    | some rules =>
      rw [processDownscalerOptions_rules _ timeRules rules htr hr, List.mem_append] at h
      rcases h with h | h
      · left; exact hsched e h
      · right; right; right
        obtain ⟨p, _, hp⟩ := List.mem_flatMap.mp h
        exact ⟨p.1, p.2, hp⟩

theorem flatMap_checkRule_length (childBase : field.Path) (rules : List v1alpha1.Rule) :
    ∀ index : Nat,
      ((rules.enumFrom index).flatMap (fun p => checkRule childBase p.1 p.2 [])).length =
        (rules.map Rule.violations).sum := by
  induction rules with
  | nil => intro index; simp
  | cons rule rest ih =>
    intro index
    simp only [List.enumFrom_cons, List.flatMap_cons, List.length_append, List.map_cons,
      List.sum_cons]
    rw [ih (index + 1), checkRule_length]

/-! ### Claims about the emitted stream -/

/-- C15: when timeRules and rules are non-nil, the errors `Validate` emits are
the schedule error, if any, followed by the errors of rule 0, of rule 1 and so
on in increasing rule index; their number is 1 if the time zone has no slash,
else 0, plus the sum over all rules of the number of per-rule checks the rule
violates. Every error of rule i sits under spec.downscalerOptions.timeRules[i]. -/
theorem validate_error_count (s : Downscaler) (timeRules : v1alpha1.TimeRules)
    (rules : List v1alpha1.Rule)
    (htr : s.app.Spec.DownscalerOptions.TimeRules = some timeRules)
    (hr : timeRules.Rules = some rules) :
    s.emitted = processScheduleFields (some s.app.Spec.Schedule) [] ++
      rules.enum.flatMap
        (fun p => checkRule ((field.NewPath Spec).Child DownscalerOptions) p.1 p.2 []) ∧
    (processScheduleFields (some s.app.Spec.Schedule) []).length =
      (if '/' ∈ s.app.Spec.Schedule.TimeZone.data then 0 else 1) ∧
    s.emitted.length = (if '/' ∈ s.app.Spec.Schedule.TimeZone.data then 0 else 1) +
      (rules.map Rule.violations).sum ∧
    (∀ (index : Nat) (rule : v1alpha1.Rule),
      (checkRule ((field.NewPath Spec).Child DownscalerOptions) index rule []).length =
        Rule.violations rule ∧
      ∀ e ∈ checkRule ((field.NewPath Spec).Child DownscalerOptions) index rule [],
        ∃ tail : String,
          e.Field = "spec.downscalerOptions.timeRules[" ++ toString index ++ "]" ++ tail) := by
  have hem : s.emitted = processScheduleFields (some s.app.Spec.Schedule) [] ++
      rules.enum.flatMap
        (fun p => checkRule ((field.NewPath Spec).Child DownscalerOptions) p.1 p.2 []) := by
    rw [emitted_eq_accumulated]
    unfold Downscaler.accumulated
    exact processDownscalerOptions_rules _ timeRules rules htr hr _
  have hsl : (processScheduleFields (some s.app.Spec.Schedule) []).length =
      (if '/' ∈ s.app.Spec.Schedule.TimeZone.data then 0 else 1) := by
    rw [processScheduleFields_eq]
    split <;> simp
  refine ⟨hem, hsl, ?_, ?_⟩
  · rw [hem, List.length_append, hsl]
    unfold List.enum
    rw [flatMap_checkRule_length]
  · intro index rule
    refine ⟨checkRule_length _ index rule, ?_⟩
    intro e he
    rcases checkRule_mem index rule e he with h | h | h
    · refine ⟨".namespaces", ?_⟩
      rw [h]
      apply String.ext
      simp [String.data_append]
    · refine ⟨".namespaces.upscaleTime", ?_⟩
      rw [h]
      apply String.ext
      simp [String.data_append]
    · refine ⟨".namespaces.downscaleTime", ?_⟩
      rw [h]
      apply String.ext
      simp [String.data_append]

/-- Witness for C15: UTC with a rule failing all three checks, a valid rule
and a rule failing two checks gives 1 + (3 + 0 + 2) errors. -/
theorem validate_error_count_witness :
    (mkDownscaler "UTC" (some ⟨some [badRule, goodRule,
      ⟨some ["team-b"], "", "2000"⟩]⟩)).emitted.length = 1 + [3, 0, 2].sum :=
  (validate_error_count (mkDownscaler "UTC" (some ⟨some [badRule, goodRule,
      ⟨some ["team-b"], "", "2000"⟩]⟩)) ⟨some [badRule, goodRule,
      ⟨some ["team-b"], "", "2000"⟩]⟩ [badRule, goodRule, ⟨some ["team-b"], "", "2000"⟩]
    rfl rfl).2.2.1

/-- C17: `Validate` hands the process functions the addresses of the embedded
Schedule and DownscalerOptions, never nil: no error it emits has cause
NilInclude or sits at spec.schedule or spec.downscalerOptions. The NilInclude
error is recorded by `processScheduleFields` and `processDownscalerOptions`
exactly when they are given nil, which only a direct call can do. -/
theorem validate_never_nilInclude (s : Downscaler) :
    (∀ e ∈ s.emitted, e.Detail ≠ ErrNilInclude ∧ e.Field ≠ "spec.schedule" ∧
      e.Field ≠ "spec.downscalerOptions") ∧
    s.emitted = processDownscalerOptions (some s.app.Spec.DownscalerOptions)
      (processScheduleFields (some s.app.Spec.Schedule) []) ∧
    (∀ schedule : Option v1alpha1.Schedule,
      (∃ e ∈ processScheduleFields schedule [], e.Detail = ErrNilInclude) ↔ schedule = none) ∧
    (∀ options : Option v1alpha1.DownscalerOptions,
      (∃ e ∈ processDownscalerOptions options [], e.Detail = ErrNilInclude) ↔
        options = none) ∧
    processScheduleFields none [] =
      [⟨"spec.schedule", field.BadValue.schedule none, ErrNilInclude⟩] ∧
    processDownscalerOptions none [] =
      [⟨"spec.downscalerOptions", field.BadValue.options none, ErrNilInclude⟩] := by
  have hall : ∀ (d : Downscaler), ∀ e ∈ d.accumulated, e.Detail ≠ ErrNilInclude ∧
      e.Field ≠ "spec.schedule" ∧ e.Field ≠ "spec.downscalerOptions" := by
    intro d e he
    rcases accumulated_mem d e he with h | h | h | ⟨index, rule, h⟩
    · rw [h]
      exact ⟨by simp, (by decide : "spec.schedule.timeZone" ≠ "spec.schedule"),
        (by decide : "spec.schedule.timeZone" ≠ "spec.downscalerOptions")⟩
    · rw [h]; decide
    · rw [h]; decide
    · rcases checkRule_mem index rule e h with h | h | h <;>
      · rw [h]
        refine ⟨by simp, ?_, ?_⟩
        · intro hf
          have hd := congrArg String.data hf
          simp [String.data_append] at hd
        · intro hf
          have hd := congrArg String.data hf
          simp [String.data_append] at hd
  refine ⟨?_, emitted_eq_accumulated s, ?_, ?_, by decide, by decide⟩
  · intro e he
    rw [emitted_eq_accumulated] at he
    exact hall s e he
  · intro schedule
    constructor
    · rintro ⟨e, he, hd⟩
      cases schedule with
      | none => rfl
      | some sched =>
        exfalso
        rw [processScheduleFields_eq] at he
        split at he
        · simp at he
        · simp only [List.nil_append, List.mem_singleton] at he
          rw [he] at hd
          simp at hd
    · intro h
      rw [h]
      exact ⟨⟨"spec.schedule", field.BadValue.schedule none, ErrNilInclude⟩, by decide, rfl⟩
  · intro options
    constructor
    · rintro ⟨e, he, hd⟩
      cases options with
      | none => rfl
      | some opts =>
        exfalso
        have hacc : e ∈ (⟨⟨⟨⟨"a/b"⟩, opts⟩⟩⟩ : Downscaler).accumulated := by
          unfold Downscaler.accumulated
          have hs : processScheduleFields (some (⟨"a/b"⟩ : v1alpha1.Schedule)) [] = [] := by
            decide
          simp only [hs]
          exact he
        exact (hall _ e hacc).1 hd
    · intro h
      rw [h]
      exact ⟨⟨"spec.downscalerOptions", field.BadValue.options none, ErrNilInclude⟩,
        by decide, rfl⟩

/-- Witness for C17: the resource with both blocks absent still emits no
NilInclude error. -/
theorem validate_never_nilInclude_witness :
    (⟨"spec.schedule.timeZone", field.BadValue.str "", ErrMalformedTimeZone⟩ :
      field.Error).Detail ≠ ErrNilInclude :=
  ((validate_never_nilInclude zeroValued).1
    ⟨"spec.schedule.timeZone", field.BadValue.str "", ErrMalformedTimeZone⟩ (by decide)).1

/-- C18: for every rule index i the MalformedUpscaleTime and
MalformedDownscaleTime errors are recorded under the namespaces segment, at
spec.downscalerOptions.timeRules[i].namespaces.upscaleTime and
spec.downscalerOptions.timeRules[i].namespaces.downscaleTime, which differ
from the sibling paths timeRules[i].upscaleTime and timeRules[i].downscaleTime. -/
theorem malformedTime_paths (opts : v1alpha1.DownscalerOptions)
    (timeRules : v1alpha1.TimeRules) (rules : List v1alpha1.Rule) (index : Nat)
    (rule : v1alpha1.Rule) (errs : List field.Error)
    (htr : opts.TimeRules = some timeRules) (hr : timeRules.Rules = some rules)
    (hi : rules[index]? = some rule) :
    (':' ∉ rule.UpscaleTime.data →
      (⟨"spec.downscalerOptions.timeRules[" ++ toString index ++ "].namespaces.upscaleTime",
        field.BadValue.str rule.UpscaleTime, ErrMalforedUpscaleTime⟩ : field.Error) ∈
        processDownscalerOptions (some opts) errs) ∧
    (':' ∉ rule.DownscaleTime.data →
      (⟨"spec.downscalerOptions.timeRules[" ++ toString index ++ "].namespaces.downscaleTime",
        field.BadValue.str rule.DownscaleTime, ErrMalforedDownscaleTime⟩ : field.Error) ∈
        processDownscalerOptions (some opts) errs) ∧
    (∀ e ∈ checkRule ((field.NewPath Spec).Child DownscalerOptions) index rule [],
      (e.Detail = ErrMalforedUpscaleTime → e.Field =
        "spec.downscalerOptions.timeRules[" ++ toString index ++ "].namespaces.upscaleTime") ∧
      (e.Detail = ErrMalforedDownscaleTime → e.Field =
        "spec.downscalerOptions.timeRules[" ++ toString index ++
          "].namespaces.downscaleTime")) ∧
    "spec.downscalerOptions.timeRules[" ++ toString index ++ "].namespaces.upscaleTime" ≠
      "spec.downscalerOptions.timeRules[" ++ toString index ++ "].upscaleTime" ∧
    "spec.downscalerOptions.timeRules[" ++ toString index ++ "].namespaces.downscaleTime" ≠
      "spec.downscalerOptions.timeRules[" ++ toString index ++ "].downscaleTime" := by
  have hmem : ∀ e ∈ checkRule ((field.NewPath Spec).Child DownscalerOptions) index rule [],
      e ∈ processDownscalerOptions (some opts) errs := by
    intro e he
    rw [processDownscalerOptions_rules opts timeRules rules htr hr]
    apply List.mem_append_right
    exact List.mem_flatMap.mpr ⟨(index, rule), List.mk_mem_enum_iff_getElem?.mpr hi, he⟩
  refine ⟨?_, ?_, ?_, ?_, ?_⟩
  · intro h
    apply hmem
    rw [checkRule_rendered]
    simp [h]
  · intro h
    apply hmem
    rw [checkRule_rendered]
    simp [h]
  · intro e he
    rcases checkRule_mem index rule e he with h | h | h <;>
    · rw [h]
      simp
  · intro hf
    have hd := congrArg String.data hf
    simp [String.data_append] at hd
  · intro hf
    have hd := congrArg String.data hf
    simp [String.data_append] at hd

/-- Witness for C18: the second of two rules has both times without colon. -/
theorem malformedTime_paths_witness :
    (⟨"spec.downscalerOptions.timeRules[" ++ toString 1 ++ "].namespaces.upscaleTime",
      field.BadValue.str "0800", ErrMalforedUpscaleTime⟩ : field.Error) ∈
      processDownscalerOptions (some ⟨some ⟨some [goodRule, badRule]⟩⟩) [] :=
  (malformedTime_paths ⟨some ⟨some [goodRule, badRule]⟩⟩ ⟨some [goodRule, badRule]⟩
    [goodRule, badRule] 1 badRule [] rfl rfl rfl).1 (by decide)

end scheduler

/-! ### Helper lemmas: the patch loop -/

namespace factory
open client pkgerrors.PkgError

theorem sameKey_setScale (p o : Object) (r : Int) :
    p.sameKey (o.setScale r) = p.sameKey o := by
  simp [Object.sameKey, Object.setScale]

theorem setScale_setScale (o : Object) (r : Int) :
    (o.setScale r).setScale r = o.setScale r := by
  simp [Object.setScale]

theorem afterPatches_nil (log : Logger) (nameKey ns : String) (replicas : Int) (w : World) :
    afterPatches log nameKey ns replicas [] w = w := by
  cases w
  simp [afterPatches]

theorem nextFault_of_take (w : World) (n : Nat)
    (h : ∀ f ∈ w.faults.take (n + 1), f = none) : w.nextFault = none := by
  unfold World.nextFault
  cases hf : w.faults with
  | nil => rfl
  | cons f fs =>
    rw [hf] at h
    exact h f (by simp)

theorem tail_take_of_take (w : World) (n : Nat)
    (h : ∀ f ∈ w.faults.take (n + 1), f = none) : ∀ f ∈ w.faults.tail.take n, f = none := by
  cases hf : w.faults with
  | nil => intro f hm; simp at hm
  | cons f fs =>
    rw [hf] at h
    intro g hg
    exact h g (by simp at hg ⊢; exact Or.inr hg)

/-- One successful step followed by the successful steps `done` is the
successful steps `p :: done`. -/
theorem afterPatches_cons (log : Logger) (nameKey ns : String) (replicas : Int)
    (p : Object) (done : List Object) (w : World) :
    afterPatches log nameKey ns replicas done
      { objects := w.objects.map (fun o => if p.sameKey o then o.setScale replicas else o),
        faults := w.faults.tail,
        calls := w.calls ++ [Call.patch replicas p none],
        logs := w.logs ++ [infoRecord log nameKey ns replicas p] }
      = afterPatches log nameKey ns replicas (p :: done) w := by
  unfold afterPatches
  simp only [List.map_map, List.append_assoc, List.singleton_append, List.map_cons,
    List.length_cons, List.drop_succ_cons, World.mk.injEq, and_true]
  refine ⟨?_, ?_⟩
  · apply List.map_congr_left
    intro o _
    by_cases hp : p.sameKey o = true
    · simp [hp, sameKey_setScale, setScale_setScale]
    · simp [hp]
  · cases w.faults <;> simp

theorem patch_ok (c : APIClient) (replicas : Int) (obj : Object) (w : World)
    (h : w.nextFault = none) :
    c.Patch replicas obj w =
      (none, { objects := w.objects.map
                 (fun o => if obj.sameKey o then o.setScale replicas else o),
               faults := w.faults.tail,
               calls := w.calls ++ [Call.patch replicas obj none],
               logs := w.logs }) := by
  simp [APIClient.Patch, h]

theorem patch_fails (c : APIClient) (replicas : Int) (obj : Object) (w : World) (e : ApiError)
    (h : w.nextFault = some e) :
    c.Patch replicas obj w =
      (some e, { objects := w.objects, faults := w.faults.tail,
                 calls := w.calls ++ [Call.patch replicas obj (some e)],
                 logs := w.logs }) := by
  simp [APIClient.Patch, h]

/-- The three ways the patch loop can end: every object patched; a nil scale
pointer met after a run of successes; a failed patch after a run of
successes. -/
theorem patchEach_cases (c : APIClient) (log : Logger) (nameKey ns : String) (replicas : Int)
    (items : List Object) :
    ∀ w : World,
      ((∀ o ∈ items, o.Scale ≠ none) ∧ (∀ f ∈ w.faults.take items.length, f = none) ∧
        patchEach c log nameKey ns replicas items w =
          (Outcome.returned none, afterPatches log nameKey ns replicas items w)) ∨
      (∃ pre obj post, items = pre ++ obj :: post ∧ (∀ o ∈ pre, o.Scale ≠ none) ∧
        (∀ f ∈ w.faults.take pre.length, f = none) ∧ obj.Scale = none ∧
        patchEach c log nameKey ns replicas items w =
          (Outcome.nilDereference, afterPatches log nameKey ns replicas pre w)) ∨
      (∃ pre obj post e, items = pre ++ obj :: post ∧ (∀ o ∈ pre, o.Scale ≠ none) ∧
        (∀ f ∈ w.faults.take pre.length, f = none) ∧ obj.Scale ≠ none ∧
        (afterPatches log nameKey ns replicas pre w).nextFault = some e ∧
        patchEach c log nameKey ns replicas items w =
          (Outcome.returned (some e), afterFailure log nameKey ns replicas pre obj e w)) := by
  induction items with
  | nil =>
    intro w
    left
    refine ⟨by simp, by simp, ?_⟩
    simp [patchEach, afterPatches_nil]
  | cons p rest ih =>
    intro w
    cases hsc : p.Scale with
    | none =>
      right; left
      refine ⟨[], p, rest, rfl, by simp, by simp, hsc, ?_⟩
      simp [patchEach, hsc, afterPatches_nil]
    | some before =>
      cases hnf : w.nextFault with
      | some e =>
        right; right
        refine ⟨[], p, rest, e, rfl, by simp, by simp, by simp [hsc], ?_, ?_⟩
        · rw [afterPatches_nil]; exact hnf
        · simp [patchEach, hsc, patch_fails c replicas p w e hnf, afterFailure,
            afterPatches_nil]
      | none =>
        have hstep : patchEach c log nameKey ns replicas (p :: rest) w =
            patchEach c log nameKey ns replicas rest
              { objects := w.objects.map
                  (fun o => if p.sameKey o then o.setScale replicas else o),
                faults := w.faults.tail,
                calls := w.calls ++ [Call.patch replicas p none],
                logs := w.logs ++ [infoRecord log nameKey ns replicas p] } := by
          simp [patchEach, hsc, patch_ok c replicas p w hnf, infoRecord]
        have hhead : ∀ (n : Nat), (∀ f ∈ w.faults.tail.take n, f = none) →
            ∀ f ∈ w.faults.take (n + 1), f = none := by
          intro n hn f hf
          unfold World.nextFault at hnf
          cases hfs : w.faults with
          | nil => rw [hfs] at hf; simp at hf
          | cons g gs =>
            rw [hfs] at hf hnf hn
            simp at hf hnf hn
            rcases hf with hf | hf
            · rw [hf]; exact hnf
            · exact hn f hf
        have hp : p.Scale ≠ none := by simp [hsc]
        rcases ih { objects := w.objects.map
                      (fun o => if p.sameKey o then o.setScale replicas else o),
                    faults := w.faults.tail,
                    calls := w.calls ++ [Call.patch replicas p none],
                    logs := w.logs ++ [infoRecord log nameKey ns replicas p] } with
          ⟨h1, h2, h3⟩ | ⟨pre, obj, post, h1, h2, h3, h4, h5⟩ |
          ⟨pre, obj, post, e, h1, h2, h3, h4, h5, h6⟩
        · left
          refine ⟨?_, ?_, ?_⟩
          · intro o ho
            rcases List.mem_cons.mp ho with rfl | ho
            · exact hp
            · exact h1 o ho
          · exact hhead rest.length h2
          · rw [hstep, h3, afterPatches_cons]
        · right; left
          refine ⟨p :: pre, obj, post, by simp [h1], ?_, ?_, h4, ?_⟩
          · intro o ho
            rcases List.mem_cons.mp ho with rfl | ho
            · exact hp
            · exact h2 o ho
          · exact hhead pre.length h3
          · rw [hstep, h5, afterPatches_cons]
        · right; right
          refine ⟨p :: pre, obj, post, e, by simp [h1], ?_, ?_, h4, ?_, ?_⟩
          · intro o ho
            rcases List.mem_cons.mp ho with rfl | ho
            · exact hp
            · exact h2 o ho
          · exact hhead pre.length h3
          · rw [← afterPatches_cons]; exact h5
          · rw [hstep, h6]
            simp only [afterFailure, afterPatches_cons]

theorem run_get_fails (sc : ResourceScaler) (ns : String) (replicas : Int) (w : World)
    (e : ApiError) (h : w.nextFault = some e) :
    sc.Run ns replicas w =
      (Outcome.returned (some e),
        { w with faults := w.faults.tail,
                 calls := w.calls ++ [Call.get ns sc.kind (some e)] }) := by
  cases sc <;>
    simp [ResourceScaler.Run, ScaleDeployment.Run, ScaleStatefulSet.Run, ScaleHPA.Run,
      APIClient.Get, h, ResourceScaler.kind]

theorem run_get_ok (sc : ResourceScaler) (ns : String) (replicas : Int) (w : World)
    (h : w.nextFault = none) :
    sc.Run ns replicas w =
      patchEach sc.client sc.log sc.nameKey ns replicas (w.list sc.kind ns)
        (afterGet ns sc.kind w) := by
  cases sc <;>
    simp [ResourceScaler.Run, ScaleDeployment.Run, ScaleStatefulSet.Run, ScaleHPA.Run,
      APIClient.Get, h, ResourceScaler.kind, ResourceScaler.client, ResourceScaler.log,
      ResourceScaler.nameKey, afterGet]

theorem list_afterPatches (log : Logger) (nameKey ns : String) (replicas : Int)
    (done : List Object) (w : World) (kind : Kind) (ns' : String) :
    (afterPatches log nameKey ns replicas done w).list kind ns' =
      (w.list kind ns').map
        (fun o => if done.any (fun p => p.sameKey o) then o.setScale replicas else o) := by
  unfold World.list afterPatches
  simp only [List.filter_map]
  congr 1
  apply List.filter_congr
  intro o _
  simp only [Function.comp]
  split <;> simp [Object.setScale]

theorem list_afterGet (ns : String) (kind : Kind) (w : World) (kind' : Kind) (ns' : String) :
    (afterGet ns kind w).list kind' ns' = w.list kind' ns' := rfl

theorem list_afterFailure (log : Logger) (nameKey ns : String) (replicas : Int)
    (done : List Object) (obj : Object) (e : ApiError) (w : World) (kind : Kind)
    (ns' : String) :
    (afterFailure log nameKey ns replicas done obj e w).list kind ns' =
      (afterPatches log nameKey ns replicas done w).list kind ns' := rfl

theorem sameKey_self (o : Object) : o.sameKey o = true := by
  simp [Object.sameKey]

theorem sameKey_iff (p o : Object) :
    p.sameKey o = true ↔
      (o.Kind, o.Namespace, o.Name) = (p.Kind, p.Namespace, p.Name) := by
  simp [Object.sameKey]

/-- Patching every object of a list sets the scale of each of them. -/
theorem map_patched_all (replicas : Int) (items : List Object) :
    items.map (fun o => if items.any (fun p => p.sameKey o) then o.setScale replicas else o)
      = items.map (Object.setScale replicas) := by
  apply List.map_congr_left
  intro o ho
  have : (items.any fun p => p.sameKey o) = true :=
    List.any_eq_true.mpr ⟨o, ho, sameKey_self o⟩
  simp [this]

/-- Patching the first part of a list whose objects have distinct names sets
the scale in that part and leaves the rest as it was. -/
theorem map_patched_front (replicas : Int) (pre post : List Object)
    (hnd : ((pre ++ post).map (fun o => (o.Kind, o.Namespace, o.Name))).Nodup) :
    (pre ++ post).map
        (fun o => if pre.any (fun p => p.sameKey o) then o.setScale replicas else o)
      = pre.map (Object.setScale replicas) ++ post := by
  rw [List.map_append]
  congr 1
  · apply List.map_congr_left
    intro o ho
    have : (pre.any fun p => p.sameKey o) = true :=
      List.any_eq_true.mpr ⟨o, ho, sameKey_self o⟩
    simp [this]
  · conv_rhs => rw [← List.map_id post]
    apply List.map_congr_left
    intro o ho
    have hno : ¬ (pre.any fun p => p.sameKey o) = true := by
      intro hany
      obtain ⟨q, hq, hs⟩ := List.any_eq_true.mp hany
      rw [List.map_append, List.nodup_append] at hnd
      have hdis := hnd.2.2
      have h1 : (q.Kind, q.Namespace, q.Name) ∈
          pre.map (fun o => (o.Kind, o.Namespace, o.Name)) := List.mem_map.mpr ⟨q, hq, rfl⟩
      have h2 : (q.Kind, q.Namespace, q.Name) ∈
          post.map (fun o => (o.Kind, o.Namespace, o.Name)) :=
        List.mem_map.mpr ⟨o, ho, (sameKey_iff q o).mp hs⟩
      exact hdis h1 h2
    simp [hno]

theorem list_keys_nodup (w : World) (hu : w.uniqueNames) (kind : Kind) (ns : String) :
    ((w.list kind ns).map (fun o => (o.Kind, o.Namespace, o.Name))).Nodup := by
  unfold World.uniqueNames at hu
  unfold World.list
  exact hu.sublist (List.Sublist.map _ (List.filter_sublist _))

theorem calls_afterPatches (log : Logger) (nameKey ns : String) (replicas : Int)
    (done : List Object) (kind : Kind) (w : World) :
    (afterPatches log nameKey ns replicas done (afterGet ns kind w)).calls =
      w.calls ++ Call.get ns kind none :: done.map (fun o => Call.patch replicas o none) := by
  simp [afterPatches, afterGet]

theorem calls_afterFailure (log : Logger) (nameKey ns : String) (replicas : Int)
    (done : List Object) (obj : Object) (e : ApiError) (kind : Kind) (w : World) :
    (afterFailure log nameKey ns replicas done obj e (afterGet ns kind w)).calls =
      w.calls ++ Call.get ns kind none ::
        (done.map (fun o => Call.patch replicas o none) ++
          [Call.patch replicas obj (some e)]) := by
  simp [afterFailure, afterPatches, afterGet]

theorem list_nodup (w : World) (hu : w.uniqueNames) (kind : Kind) (ns : String) :
    (w.list kind ns).Nodup :=
  List.Nodup.of_map _ (list_keys_nodup w hu kind ns)

theorem patchEach_ok (c : APIClient) (log : Logger) (nameKey ns : String) (replicas : Int)
    (items : List Object) :
    ∀ w : World, (∀ o ∈ items, o.Scale ≠ none) →
      (∀ f ∈ w.faults.take items.length, f = none) →
      patchEach c log nameKey ns replicas items w =
        (Outcome.returned none, afterPatches log nameKey ns replicas items w) := by
  induction items with
  | nil => intro w _ _; simp [patchEach, afterPatches_nil]
  | cons p rest ih =>
    intro w hs hf
    have hnf : w.nextFault = none := nextFault_of_take w rest.length hf
    obtain ⟨before, hsc⟩ := Option.ne_none_iff_exists'.mp (hs p (List.mem_cons_self _ _))
    have hstep : patchEach c log nameKey ns replicas (p :: rest) w =
        patchEach c log nameKey ns replicas rest
          { objects := w.objects.map
              (fun o => if p.sameKey o then o.setScale replicas else o),
            faults := w.faults.tail,
            calls := w.calls ++ [Call.patch replicas p none],
            logs := w.logs ++ [infoRecord log nameKey ns replicas p] } := by
      simp [patchEach, hsc, patch_ok c replicas p w hnf, infoRecord]
    rw [hstep, ih _ (fun o ho => hs o (List.mem_cons_of_mem _ ho))
      (tail_take_of_take w rest.length hf), afterPatches_cons]

theorem run_ok (sc : ResourceScaler) (ns : String) (replicas : Int) (w : World)
    (hnf : w.nextFault = none) (hs : ∀ o ∈ w.list sc.kind ns, o.Scale ≠ none)
    (hf : ∀ f ∈ w.faults.tail.take (w.list sc.kind ns).length, f = none) :
    sc.Run ns replicas w =
      (Outcome.returned none,
        afterPatches sc.log sc.nameKey ns replicas (w.list sc.kind ns)
          (afterGet ns sc.kind w)) := by
  rw [run_get_ok sc ns replicas w hnf]
  exact patchEach_ok _ _ _ _ _ _ _ hs hf

/-- After every object of a kind in a namespace has been patched, the store is
the old one with the scale set on exactly those objects. -/
theorem objects_afterPatches_list (log : Logger) (nameKey ns : String) (replicas : Int)
    (kind : Kind) (w : World) :
    (afterPatches log nameKey ns replicas (w.list kind ns) (afterGet ns kind w)).objects =
      w.objects.map
        (fun o => if o.Kind = kind ∧ o.Namespace = ns then o.setScale replicas else o) := by
  unfold afterPatches afterGet
  simp only []
  apply List.map_congr_left
  intro o ho
  by_cases hm : o.Kind = kind ∧ o.Namespace = ns
  · have hin : o ∈ w.list kind ns := by
      unfold World.list
      exact List.mem_filter.mpr ⟨ho, by simpa using hm⟩
    have : ((w.list kind ns).any fun p => p.sameKey o) = true :=
      List.any_eq_true.mpr ⟨o, hin, sameKey_self o⟩
    simp [this, hm]
  · have : ¬ ((w.list kind ns).any fun p => p.sameKey o) = true := by
      intro hany
      obtain ⟨q, hq, hsk⟩ := List.any_eq_true.mp hany
      unfold World.list at hq
      have hq2 := (List.mem_filter.mp hq).2
      simp only [decide_eq_true_eq] at hq2
      simp only [Object.sameKey, decide_eq_true_eq] at hsk
      exact hm ⟨hsk.1.trans hq2.1, hsk.2.1.trans hq2.2⟩
    simp [this, hm]

theorem mem_take_of_mem_drop_take {α : Type} (l : List α) (a b : Nat) (x : α)
    (h : x ∈ (l.drop a).take b) : x ∈ l.take (a + b) := by
  rw [List.take_add]
  exact List.mem_append_right _ h

/-! ### Claims about `GetScaler` and `Run` -/

/-- C6: `GetScaler` succeeds exactly when the lower-cased kind string is one of
deployments, statefulset, hpa, and then returns the Deployment, StatefulSet or
HPA strategy bound to the given client and logger; for every other string it
returns no strategy together with ErrListTypeNotFound. Deployments,
DEPLOYMENTS and deployments all give the Deployment strategy and the empty
string gives the error. -/
theorem getScaler_spec (caseTable : Char → Char) (resourceType : String) (client : APIClient)
    (log : Logger) :
    (strings.ToLower caseTable resourceType = "deployments" →
      GetScaler caseTable resourceType client log =
        (some (ResourceScaler.deployment ⟨client, log⟩), none)) ∧
    (strings.ToLower caseTable resourceType = "statefulset" →
      GetScaler caseTable resourceType client log =
        (some (ResourceScaler.statefulSet ⟨client, log⟩), none)) ∧
    (strings.ToLower caseTable resourceType = "hpa" →
      GetScaler caseTable resourceType client log =
        (some (ResourceScaler.hpa ⟨client, log⟩), none)) ∧
    (strings.ToLower caseTable resourceType ∉ ["deployments", "statefulset", "hpa"] →
      GetScaler caseTable resourceType client log = (none, some ErrListTypeNotFound)) ∧
    ((GetScaler caseTable resourceType client log).2 = none ↔
      strings.ToLower caseTable resourceType ∈ ["deployments", "statefulset", "hpa"]) ∧
    ((GetScaler caseTable resourceType client log).1 ≠ none ↔
      strings.ToLower caseTable resourceType ∈ ["deployments", "statefulset", "hpa"]) ∧
    GetScaler caseTable "Deployments" client log =
      (some (ResourceScaler.deployment ⟨client, log⟩), none) ∧
    GetScaler caseTable "DEPLOYMENTS" client log =
      (some (ResourceScaler.deployment ⟨client, log⟩), none) ∧
    GetScaler caseTable "deployments" client log =
      (some (ResourceScaler.deployment ⟨client, log⟩), none) ∧
    GetScaler caseTable "" client log = (none, some ErrListTypeNotFound) := by
  refine ⟨?_, ?_, ?_, ?_, ?_, ?_, rfl, rfl, rfl, rfl⟩
  · intro h
    simp [GetScaler, h, DEPLOYMENT]
  · intro h
    simp [GetScaler, h, DEPLOYMENT, STATEFULSET]
  · intro h
    simp [GetScaler, h, DEPLOYMENT, STATEFULSET, HPA]
  · intro h
    simp only [List.mem_cons, List.mem_singleton, List.not_mem_nil, or_false, not_or] at h
    simp [GetScaler, h, DEPLOYMENT, STATEFULSET, HPA]
  · unfold GetScaler
    simp only [DEPLOYMENT, STATEFULSET, HPA]
    split_ifs <;> simp [*]
  · unfold GetScaler
    simp only [DEPLOYMENT, STATEFULSET, HPA]
    split_ifs <;> simp [*]

/-- Witness for C6: the mixed-case kind string StatefulSet. -/
theorem getScaler_spec_witness :
    GetScaler id "StatefulSet" ⟨1⟩ ⟨"controller"⟩ =
      (some (ResourceScaler.statefulSet ⟨⟨1⟩, ⟨"controller"⟩⟩), none) :=
  (getScaler_spec id "StatefulSet" ⟨1⟩ ⟨"controller"⟩).2.1 (by decide)

/-- C8: when the list fetch fails, `Run` of each strategy returns that same
error, makes no Patch call, leaves every object and the log as they were, and
has called Get exactly once. -/
theorem run_fetch_failure (sc : ResourceScaler) (ns : String) (replicas : Int) (w : World)
    (e : ApiError) (hfetch : w.nextFault = some e) :
    (sc.Run ns replicas w).1 = Outcome.returned (some e) ∧
    (sc.Run ns replicas w).2.calls = w.calls ++ [Call.get ns sc.kind (some e)] ∧
    (∀ r obj err, Call.patch r obj err ∉ (sc.Run ns replicas w).2.calls.drop w.calls.length) ∧
    (sc.Run ns replicas w).2.objects = w.objects ∧
    (sc.Run ns replicas w).2.logs = w.logs := by
  rw [run_get_fails sc ns replicas w e hfetch]
  refine ⟨rfl, rfl, ?_, rfl, rfl⟩
  intro r obj err
  simp

/-- Witness for C8: the sample world with a failing first call. -/
theorem run_fetch_failure_witness :
    (sampleScaler.Run "shop" 0 (sampleWorld [some ⟨"list failed"⟩])).1 =
      Outcome.returned (some ⟨"list failed"⟩) ∧
    (sampleScaler.Run "shop" 0 (sampleWorld [some ⟨"list failed"⟩])).2.objects = sampleObjects :=
  have h := run_fetch_failure sampleScaler "shop" 0 (sampleWorld [some ⟨"list failed"⟩])
    ⟨"list failed"⟩ rfl
  ⟨h.1, h.2.2.2.1⟩

/-- C10: round trip. When every object of the strategy's kind in the namespace
has scale R0 and no fetch or patch fails, `Run` to R1 followed by `Run` to R0
returns nil twice and leaves every object's scale field equal to R0: the
store is back to what it was. -/
theorem run_round_trip (sc : ResourceScaler) (ns : String) (R0 R1 : Int) (w : World)
    (h0 : ∀ o ∈ w.list sc.kind ns, o.Scale = some R0)
    (hf : ∀ f ∈ w.faults.take (2 * ((w.list sc.kind ns).length + 1)), f = none) :
    (sc.Run ns R1 w).1 = Outcome.returned none ∧
    (sc.Run ns R0 (sc.Run ns R1 w).2).1 = Outcome.returned none ∧
    (∀ o ∈ (sc.Run ns R1 w).2.list sc.kind ns, o.Scale = some R1) ∧
    (∀ o ∈ (sc.Run ns R0 (sc.Run ns R1 w).2).2.list sc.kind ns, o.Scale = some R0) ∧
    (sc.Run ns R0 (sc.Run ns R1 w).2).2.objects = w.objects := by
  have hsplit : ∀ f ∈ w.faults.take (((w.list sc.kind ns).length + 1) +
      ((w.list sc.kind ns).length + 1)), f = none := by
    intro f hm
    apply hf f
    rw [two_mul]
    exact hm
  have hfirst : ∀ f ∈ w.faults.take ((w.list sc.kind ns).length + 1), f = none := by
    intro f hm
    apply hsplit f
    rw [List.take_add]
    exact List.mem_append_left _ hm
  have hnf : w.nextFault = none := nextFault_of_take w _ hfirst
  have hs : ∀ o ∈ w.list sc.kind ns, o.Scale ≠ none := by
    intro o ho; rw [h0 o ho]; simp
  have hrun1 := run_ok sc ns R1 w hnf hs (tail_take_of_take w _ hfirst)
  have hlist1 : (afterPatches sc.log sc.nameKey ns R1 (w.list sc.kind ns)
      (afterGet ns sc.kind w)).list sc.kind ns = (w.list sc.kind ns).map (Object.setScale R1) := by
    rw [list_afterPatches, list_afterGet, map_patched_all]
  have hfaults1 : (afterPatches sc.log sc.nameKey ns R1 (w.list sc.kind ns)
      (afterGet ns sc.kind w)).faults = w.faults.drop ((w.list sc.kind ns).length + 1) := by
    simp [afterPatches, afterGet]
  have hsecond : ∀ f ∈ (afterPatches sc.log sc.nameKey ns R1 (w.list sc.kind ns)
      (afterGet ns sc.kind w)).faults.take ((w.list sc.kind ns).length + 1), f = none := by
    intro f hm
    rw [hfaults1] at hm
    exact hsplit f (mem_take_of_mem_drop_take _ _ _ _ hm)
  have hscale1 : ∀ o ∈ (afterPatches sc.log sc.nameKey ns R1 (w.list sc.kind ns)
      (afterGet ns sc.kind w)).list sc.kind ns, o.Scale = some R1 := by
    intro o ho
    rw [hlist1] at ho
    obtain ⟨q, _, rfl⟩ := List.mem_map.mp ho
    rfl
  have hlen1 : ((afterPatches sc.log sc.nameKey ns R1 (w.list sc.kind ns)
      (afterGet ns sc.kind w)).list sc.kind ns).length = (w.list sc.kind ns).length := by
    rw [hlist1, List.length_map]
  have hrun2 := run_ok sc ns R0 (afterPatches sc.log sc.nameKey ns R1 (w.list sc.kind ns)
      (afterGet ns sc.kind w)) (nextFault_of_take _ _ hsecond)
      (fun o ho => by rw [hscale1 o ho]; simp)
      (by rw [hlen1]; exact tail_take_of_take _ _ hsecond)
  have hobjs : (afterPatches sc.log sc.nameKey ns R0
      ((afterPatches sc.log sc.nameKey ns R1 (w.list sc.kind ns)
        (afterGet ns sc.kind w)).list sc.kind ns)
      (afterGet ns sc.kind (afterPatches sc.log sc.nameKey ns R1 (w.list sc.kind ns)
        (afterGet ns sc.kind w)))).objects = w.objects := by
    rw [objects_afterPatches_list, objects_afterPatches_list, List.map_map]
    conv_rhs => rw [← List.map_id w.objects]
    apply List.map_congr_left
    intro o ho
    by_cases hm : o.Kind = sc.kind ∧ o.Namespace = ns
    · have hin : o ∈ w.list sc.kind ns := by
        unfold World.list
        exact List.mem_filter.mpr ⟨ho, by simpa using hm⟩
      have hsc := h0 o hin
      cases o
      simp only [] at hsc hm
      simp [Object.setScale, hm, hsc]
    · simp [hm]
  have e2 : (sc.Run ns R1 w).2 = afterPatches sc.log sc.nameKey ns R1 (w.list sc.kind ns)
      (afterGet ns sc.kind w) := by rw [hrun1]
  have hfinal : (sc.Run ns R0 (sc.Run ns R1 w).2).2.objects = w.objects := by
    rw [e2, hrun2]; exact hobjs
  refine ⟨by rw [hrun1], by rw [e2, hrun2], by rw [e2]; exact hscale1, ?_, hfinal⟩
  intro o ho
  unfold World.list at ho
  rw [hfinal] at ho
  exact h0 o ho

/-- Witness for C10: the three deployments of namespace shop, all at 5
replicas, scaled to 0 and back to 5. -/
theorem run_round_trip_witness :
    (sampleScaler.Run "shop" 5 (sampleScaler.Run "shop" 0 (sampleWorld [])).2).2.objects =
      sampleObjects :=
  (run_round_trip sampleScaler "shop" 5 0 (sampleWorld []) (by decide) (by decide)).2.2.2.2

/-! ### Helper lemmas: the trace of a run -/

theorem patchEach_append (c : APIClient) (log : Logger) (nameKey ns : String) (replicas : Int)
    (pre rest : List Object) :
    ∀ w : World, (∀ o ∈ pre, o.Scale ≠ none) →
      (∀ f ∈ w.faults.take pre.length, f = none) →
      patchEach c log nameKey ns replicas (pre ++ rest) w =
        patchEach c log nameKey ns replicas rest
          (afterPatches log nameKey ns replicas pre w) := by
  induction pre with
  | nil => intro w _ _; simp [afterPatches_nil]
  | cons p pre ih =>
    intro w hs hf
    have hnf : w.nextFault = none := nextFault_of_take w pre.length hf
    obtain ⟨before, hsc⟩ := Option.ne_none_iff_exists'.mp (hs p (List.mem_cons_self _ _))
    have hstep : patchEach c log nameKey ns replicas (p :: (pre ++ rest)) w =
        patchEach c log nameKey ns replicas (pre ++ rest)
          { objects := w.objects.map
              (fun o => if p.sameKey o then o.setScale replicas else o),
            faults := w.faults.tail,
            calls := w.calls ++ [Call.patch replicas p none],
            logs := w.logs ++ [infoRecord log nameKey ns replicas p] } := by
      simp [patchEach, hsc, patch_ok c replicas p w hnf, infoRecord]
    rw [List.cons_append, hstep, ih _ (fun o ho => hs o (List.mem_cons_of_mem _ ho))
      (tail_take_of_take w pre.length hf), afterPatches_cons]

theorem logs_afterPatches (log : Logger) (nameKey ns : String) (replicas : Int)
    (done : List Object) (kind : Kind) (w : World) :
    (afterPatches log nameKey ns replicas done (afterGet ns kind w)).logs =
      w.logs ++ done.map (infoRecord log nameKey ns replicas) := by
  simp [afterPatches, afterGet]

theorem logs_afterFailure (log : Logger) (nameKey ns : String) (replicas : Int)
    (done : List Object) (obj : Object) (e : ApiError) (kind : Kind) (w : World) :
    (afterFailure log nameKey ns replicas done obj e (afterGet ns kind w)).logs =
      w.logs ++ (done.map (infoRecord log nameKey ns replicas) ++
        [LogRecord.slogError "client" "error patching deployment" e]) := by
  simp [afterFailure, afterPatches, afterGet]

theorem filterMap_patchTarget_ok (replicas : Int) (done : List Object) :
    (done.map (fun o => Call.patch replicas o none)).filterMap patchTarget =
      done.map (fun o => (replicas, o)) := by
  induction done with
  | nil => rfl
  | cons p done ih => simp [patchTarget, ih]

theorem filterMap_patchedOk_ok (replicas : Int) (done : List Object) :
    (done.map (fun o => Call.patch replicas o none)).filterMap patchedOk = done := by
  induction done with
  | nil => rfl
  | cons p done ih => simp [patchedOk, ih]

theorem filterMap_successFields_info (log : Logger) (nameKey ns : String) (replicas : Int)
    (done : List Object) (hs : ∀ o ∈ done, o.Scale ≠ none) :
    ((done.map (infoRecord log nameKey ns replicas)).filterMap successFields).map some =
      done.map (fun o => o.Scale.map (fun before => (o.Name, ns, before, replicas))) := by
  induction done with
  | nil => rfl
  | cons p done ih =>
    obtain ⟨before, hsc⟩ := Option.ne_none_iff_exists'.mp (hs p (List.mem_cons_self _ _))
    have hrec := ih (fun o ho => hs o (List.mem_cons_of_mem _ ho))
    have hhead : successFields (infoRecord log nameKey ns replicas p) =
        some (p.Name, ns, before, replicas) := by
      simp [successFields, infoRecord, hsc]
    rw [List.map_cons, List.filterMap_cons, hhead]
    simp only [List.map_cons, hrec, hsc, Option.map_some']

theorem filterMap_patchTarget_comp (replicas : Int) (done : List Object) :
    List.filterMap (patchTarget ∘ fun o => Call.patch replicas o none) done =
      done.map (fun o => (replicas, o)) := by
  rw [← List.filterMap_map]
  exact filterMap_patchTarget_ok replicas done

theorem filterMap_patchedOk_comp (replicas : Int) (done : List Object) :
    List.filterMap (patchedOk ∘ fun o => Call.patch replicas o none) done = done := by
  rw [← List.filterMap_map]
  exact filterMap_patchedOk_ok replicas done

/-- What a run leaves in the call trace and in the log: after the fetch, a run
of successful patches over the first objects of the fetched list, each with
its success record, closed by nothing or by one failed patch of the next
object and its failure record. -/
theorem run_trace (sc : ResourceScaler) (ns : String) (replicas : Int) (w : World) :
    ∃ (pre rest : List Object) (lastCall : List Call) (lastLog : List LogRecord),
      w.list sc.kind ns = pre ++ rest ∧ (∀ o ∈ pre, o.Scale ≠ none) ∧
      (newCalls w (sc.Run ns replicas w).2).filterMap patchTarget =
        pre.map (fun o => (replicas, o)) ++ lastCall.filterMap patchTarget ∧
      (newCalls w (sc.Run ns replicas w).2).filterMap patchedOk = pre ∧
      newLogs w (sc.Run ns replicas w).2 =
        pre.map (infoRecord sc.log sc.nameKey ns replicas) ++ lastLog ∧
      lastLog.filterMap successFields = [] ∧
      (lastCall = [] ∨ ∃ obj post e, rest = obj :: post ∧
        lastCall = [Call.patch replicas obj (some e)]) := by
  unfold newCalls newLogs
  cases hnf : w.nextFault with
  | some e' =>
    rw [run_get_fails sc ns replicas w e' hnf]
    refine ⟨[], w.list sc.kind ns, [], [], rfl, by simp, ?_, ?_, ?_, rfl, Or.inl rfl⟩
    · simp [patchTarget]
    · simp [patchedOk]
    · simp
  | none =>
    rw [run_get_ok sc ns replicas w hnf]
    rcases patchEach_cases sc.client sc.log sc.nameKey ns replicas (w.list sc.kind ns)
        (afterGet ns sc.kind w) with
      ⟨h1, _, h3⟩ | ⟨pre, o, post, h1, h2, _, _, h5⟩ | ⟨pre, o, post, e', h1, h2, _, _, _, h6⟩
    · rw [h3, calls_afterPatches, logs_afterPatches, List.drop_left, List.drop_left]
      refine ⟨w.list sc.kind ns, [], [], [], by simp, h1, ?_, ?_, by simp, rfl, Or.inl rfl⟩
      · simp [patchTarget, filterMap_patchTarget_comp]
      · simp [patchedOk, filterMap_patchedOk_comp]
    · rw [h5, calls_afterPatches, logs_afterPatches, List.drop_left, List.drop_left]
      refine ⟨pre, o :: post, [], [], h1, h2, ?_, ?_, by simp, rfl, Or.inl rfl⟩
      · simp [patchTarget, filterMap_patchTarget_comp]
      · simp [patchedOk, filterMap_patchedOk_comp]
    · rw [h6, calls_afterFailure, logs_afterFailure, List.drop_left, List.drop_left]
      refine ⟨pre, o :: post, [Call.patch replicas o (some e')],
        [LogRecord.slogError "client" "error patching deployment" e'], h1, h2, ?_, ?_, rfl,
        by simp [successFields], Or.inr ⟨o, post, e', rfl, rfl⟩⟩
      · simp [patchTarget, filterMap_patchTarget_comp]
      · simp [patchedOk, filterMap_patchedOk_comp]

/-! ### Claims about the order of patches and the scale pointer -/

/-- C14: for each strategy and every `Run` call, the Patch calls issued go
through the first objects of the fetched list in its enumeration order, each
with the requested replicas; the successfully patched objects are again the
first objects of that list, and one success record (name, namespace, before,
after) is logged for each of them, in that order, where before is the scale
the object was fetched with and after is the requested replicas. At most
one Patch call, the last, is not a success. -/
theorem run_patch_order (sc : ResourceScaler) (ns : String) (replicas : Int) (w : World) :
    (newCalls w (sc.Run ns replicas w).2).filterMap patchTarget =
      ((w.list sc.kind ns).take
        ((newCalls w (sc.Run ns replicas w).2).filterMap patchTarget).length).map
        (fun o => (replicas, o)) ∧
    (newCalls w (sc.Run ns replicas w).2).filterMap patchedOk =
      (w.list sc.kind ns).take
        ((newCalls w (sc.Run ns replicas w).2).filterMap patchedOk).length ∧
    ((newLogs w (sc.Run ns replicas w).2).filterMap successFields).map some =
      ((newCalls w (sc.Run ns replicas w).2).filterMap patchedOk).map
        (fun o => o.Scale.map (fun before => (o.Name, ns, before, replicas))) ∧
    ((newCalls w (sc.Run ns replicas w).2).filterMap patchTarget).length ≤
      ((newCalls w (sc.Run ns replicas w).2).filterMap patchedOk).length + 1 := by
  obtain ⟨pre, rest, lastCall, lastLog, hitems, hscale, hcalls, hok, hlogs, hlast, hcase⟩ :=
    run_trace sc ns replicas w
  have hlogs2 : ((newLogs w (sc.Run ns replicas w).2).filterMap successFields).map some =
      pre.map (fun o => o.Scale.map (fun before => (o.Name, ns, before, replicas))) := by
    rw [hlogs, List.filterMap_append, hlast, List.append_nil]
    exact filterMap_successFields_info sc.log sc.nameKey ns replicas pre hscale
  rw [hok, hlogs2, hcalls, hitems]
  rcases hcase with hnil | ⟨obj, post, e, hrest, hlastCall⟩
  · rw [hnil]
    simp
  · rw [hlastCall, hrest]
    have htake : List.take (pre.length + 1) (pre ++ obj :: post) = pre ++ [obj] := by
      have : pre ++ obj :: post = (pre ++ [obj]) ++ post := by simp
      rw [this]
      exact List.take_left' (by simp)
    simp [patchTarget, htake]

/-- Witness for C14: three deployments, the patch of the second one fails; two
Patch calls were issued, for the first two objects in order, and one success
record was logged, for the first. -/
theorem run_patch_order_witness :
    (newCalls (sampleWorld [none, none, some ⟨"boom"⟩])
        (sampleScaler.Run "shop" 0 (sampleWorld [none, none, some ⟨"boom"⟩])).2).filterMap
        patchTarget =
      [(0, ⟨Kind.deployment, "shop", "api", some 5⟩),
       (0, ⟨Kind.deployment, "shop", "web", some 5⟩)] ∧
    (newLogs (sampleWorld [none, none, some ⟨"boom"⟩])
        (sampleScaler.Run "shop" 0 (sampleWorld [none, none, some ⟨"boom"⟩])).2).filterMap
        successFields = [("api", "shop", 5, 0)] :=
  have h := run_patch_order sampleScaler "shop" 0 (sampleWorld [none, none, some ⟨"boom"⟩])
  ⟨h.1.trans (by decide), by decide⟩

/-- C16, counterexample: the second fetched deployment has a nil
`Spec.Replicas`, yet `Run` returns normally, with the error of the failed
patch of the first object, and never reaches the nil pointer. -/
theorem run_nil_scale_counterexample :
    (∃ o ∈ (nilScaleWorld [none, some ⟨"boom"⟩]).list sampleScaler.kind "shop",
      o.Scale = none) ∧
    (sampleScaler.Run "shop" 0 (nilScaleWorld [none, some ⟨"boom"⟩])).1 =
      Outcome.returned (some ⟨"boom"⟩) ∧
    (sampleScaler.Run "shop" 0 (nilScaleWorld [none, some ⟨"boom"⟩])).1 ≠
      Outcome.nilDereference := by
  refine ⟨⟨⟨Kind.deployment, "shop", "web", none⟩, by decide, rfl⟩, by decide, by decide⟩

/-- C16, amended: each `Run` reads the scale through its pointer before
patching. If every fetched object has its scale set the dereference never
fails. If the fetch succeeds, some fetched object has it unset and every
patch before the first such object succeeds, `Run` does not return: it
stops at that object before issuing its patch, the earlier objects are
patched and that object and the later ones are untouched. A run stops this
way only at an object whose scale is unset. -/
theorem run_nil_scale (sc : ResourceScaler) (ns : String) (replicas : Int) (w : World) :
    ((∀ o ∈ w.list sc.kind ns, o.Scale ≠ none) →
      (sc.Run ns replicas w).1 ≠ Outcome.nilDereference) ∧
    (∀ (pre : List Object) (obj : Object) (post : List Object),
      w.list sc.kind ns = pre ++ obj :: post → (∀ o ∈ pre, o.Scale ≠ none) →
      obj.Scale = none → w.nextFault = none →
      (∀ f ∈ w.faults.tail.take pre.length, f = none) →
      (sc.Run ns replicas w).1 = Outcome.nilDereference ∧
      (sc.Run ns replicas w).2.calls = w.calls ++ Call.get ns sc.kind none ::
        pre.map (fun o => Call.patch replicas o none) ∧
      (w.uniqueNames → (sc.Run ns replicas w).2.list sc.kind ns =
        pre.map (Object.setScale replicas) ++ obj :: post)) ∧
    ((sc.Run ns replicas w).1 = Outcome.nilDereference →
      ∃ (pre : List Object) (obj : Object) (post : List Object),
        w.list sc.kind ns = pre ++ obj :: post ∧ (∀ o ∈ pre, o.Scale ≠ none) ∧
        obj.Scale = none ∧
        (sc.Run ns replicas w).2.calls = w.calls ++ Call.get ns sc.kind none ::
          pre.map (fun o => Call.patch replicas o none)) := by
  refine ⟨?_, ?_, ?_⟩
  · intro hall hnil
    cases hnf : w.nextFault with
    | some e' =>
      rw [run_get_fails sc ns replicas w e' hnf] at hnil
      simp at hnil
    | none =>
      rw [run_get_ok sc ns replicas w hnf] at hnil
      rcases patchEach_cases sc.client sc.log sc.nameKey ns replicas (w.list sc.kind ns)
          (afterGet ns sc.kind w) with
        ⟨_, _, h3⟩ | ⟨pre, o, post, h1, _, _, h4, _⟩ | ⟨pre, o, post, e', _, _, _, _, _, h6⟩
      · rw [h3] at hnil; simp at hnil
      · exact hall o (by rw [h1]; simp) h4
      · rw [h6] at hnil; simp at hnil
  · intro pre obj post hitems hpre hobj hnf hf
    have hrun : sc.Run ns replicas w =
        (Outcome.nilDereference,
          afterPatches sc.log sc.nameKey ns replicas pre (afterGet ns sc.kind w)) := by
      rw [run_get_ok sc ns replicas w hnf, hitems,
        patchEach_append _ _ _ _ _ pre (obj :: post) (afterGet ns sc.kind w) hpre hf]
      simp [patchEach, hobj]
    rw [hrun]
    refine ⟨rfl, calls_afterPatches _ _ _ _ _ _ _, ?_⟩
    intro hu
    have hkeys := list_keys_nodup w hu sc.kind ns
    rw [hitems] at hkeys
    show (afterPatches sc.log sc.nameKey ns replicas pre (afterGet ns sc.kind w)).list
      sc.kind ns = _
    rw [list_afterPatches, list_afterGet, hitems]
    exact map_patched_front replicas pre (obj :: post) hkeys
  · intro hnil
    cases hnf : w.nextFault with
    | some e' =>
      rw [run_get_fails sc ns replicas w e' hnf] at hnil
      simp at hnil
    | none =>
      rw [run_get_ok sc ns replicas w hnf] at hnil ⊢
      rcases patchEach_cases sc.client sc.log sc.nameKey ns replicas (w.list sc.kind ns)
          (afterGet ns sc.kind w) with
        ⟨_, _, h3⟩ | ⟨pre, o, post, h1, h2, _, h4, h5⟩ | ⟨pre, o, post, e', _, _, _, _, _, h6⟩
      · rw [h3] at hnil; simp at hnil
      · refine ⟨pre, o, post, h1, h2, h4, ?_⟩
        rw [h5]
        exact calls_afterPatches _ _ _ _ _ _ _
      · rw [h6] at hnil; simp at hnil

/-- Witness for C16 (amended): with no failure scripted the run over the
deployments api, web (nil scale) and worker stops at web; api is patched,
web and worker are untouched. -/
theorem run_nil_scale_witness :
    (sampleScaler.Run "shop" 0 (nilScaleWorld [])).1 = Outcome.nilDereference ∧
    (sampleScaler.Run "shop" 0 (nilScaleWorld [])).2.list Kind.deployment "shop" =
      [⟨Kind.deployment, "shop", "api", some 0⟩, ⟨Kind.deployment, "shop", "web", none⟩,
       ⟨Kind.deployment, "shop", "worker", some 5⟩] :=
  have h := (run_nil_scale sampleScaler "shop" 0 (nilScaleWorld [])).2.1
    [⟨Kind.deployment, "shop", "api", some 5⟩] ⟨Kind.deployment, "shop", "web", none⟩
    [⟨Kind.deployment, "shop", "worker", some 5⟩] (by decide) (by decide) rfl rfl (by decide)
  ⟨h.1, h.2.2 (by decide)⟩

/-! ### Helper lemmas: the script of call outcomes -/

theorem nextFault_afterPatches (log : Logger) (nameKey ns : String) (replicas : Int)
    (done : List Object) (kind : Kind) (w : World) :
    (afterPatches log nameKey ns replicas done (afterGet ns kind w)).nextFault =
      (match w.faults.tail.drop done.length with
        | [] => none
        | f :: _ => f) := rfl

/-- A script that starts with k + 1 successes and then the failure e lets the
fetch and k patches through and fails the next call. -/
theorem script_facts (w : World) (k : Nat) (e : ApiError) (later : List (Option ApiError))
    (h : w.faults = List.replicate (k + 1) none ++ some e :: later) :
    w.nextFault = none ∧ (∀ f ∈ w.faults.tail.take k, f = none) ∧
      w.faults.tail.drop k = some e :: later := by
  have htail : w.faults.tail = List.replicate k none ++ some e :: later := by
    rw [h, List.replicate_succ]; rfl
  refine ⟨?_, ?_, ?_⟩
  · unfold World.nextFault
    rw [h, List.replicate_succ]
    rfl
  · intro f hf
    rw [htail, List.take_left' (List.length_replicate _ _)] at hf
    exact (List.mem_replicate.mp hf).2
  · rw [htail, List.drop_left' (List.length_replicate _ _)]

/-- The converse: outcomes that let the fetch and k patches through and fail
the next call with e form that script. -/
theorem script_of_facts (w : World) (k : Nat) (e : ApiError)
    (h0 : w.nextFault = none) (h1 : ∀ f ∈ w.faults.tail.take k, f = none)
    (h2 : (match w.faults.tail.drop k with
        | [] => none
        | f :: _ => f) = some e) :
    w.faults = List.replicate (k + 1) none ++ some e :: w.faults.drop (k + 2) := by
  unfold World.nextFault at h0
  cases hfs : w.faults with
  | nil =>
    rw [hfs] at h2
    simp at h2
  | cons f t =>
    rw [hfs] at h0 h1 h2
    simp only [List.tail_cons] at h1 h2
    simp only at h0
    subst h0
    cases hd : t.drop k with
    | nil => rw [hd] at h2; simp at h2
    | cons g rest =>
      rw [hd] at h2
      simp only at h2
      subst h2
      have hlen : k < t.length := by
        by_contra hc
        have : t.drop k = [] := List.drop_eq_nil_of_le (by omega)
        rw [this] at hd
        simp at hd
      have htake : t.take k = List.replicate k none := by
        rw [List.eq_replicate_iff]
        refine ⟨?_, h1⟩
        rw [List.length_take]
        omega
      have hrest : t.drop (k + 1) = rest := by
        rw [← List.tail_drop, hd]
        rfl
      have ht : t = List.replicate k none ++ some e :: rest := by
        rw [← htake, ← hd, List.take_append_drop]
      rw [List.replicate_succ, List.cons_append, List.drop_succ_cons, hrest, ← ht]

theorem take_succ_of_tail (w : World) (n : Nat) (h0 : w.nextFault = none)
    (h1 : ∀ f ∈ w.faults.tail.take n, f = none) : ∀ f ∈ w.faults.take (n + 1), f = none := by
  intro f hf
  unfold World.nextFault at h0
  cases hfs : w.faults with
  | nil => rw [hfs] at hf; simp at hf
  | cons g gs =>
    rw [hfs] at hf h0 h1
    simp at hf h0 h1
    rcases hf with hf | hf
    · rw [hf]; exact h0
    · exact h1 f hf

/-- From the inputs: the fetch succeeds, the objects `pre` carry a scale and
their patches succeed, the next object carries a scale and its patch fails. -/
theorem run_fails_at (sc : ResourceScaler) (ns : String) (replicas : Int) (w : World)
    (pre : List Object) (obj : Object) (post : List Object) (e : ApiError)
    (hitems : w.list sc.kind ns = pre ++ obj :: post) (hnf : w.nextFault = none)
    (hpre : ∀ o ∈ pre, o.Scale ≠ none) (hobj : obj.Scale ≠ none)
    (hf : ∀ f ∈ w.faults.tail.take pre.length, f = none)
    (hfail : (afterPatches sc.log sc.nameKey ns replicas pre
      (afterGet ns sc.kind w)).nextFault = some e) :
    sc.Run ns replicas w =
      (Outcome.returned (some e),
        afterFailure sc.log sc.nameKey ns replicas pre obj e (afterGet ns sc.kind w)) := by
  obtain ⟨before, hsc⟩ := Option.ne_none_iff_exists'.mp hobj
  rw [run_get_ok sc ns replicas w hnf, hitems,
    patchEach_append _ _ _ _ _ pre (obj :: post) (afterGet ns sc.kind w) hpre hf]
  simp [patchEach, hsc, patch_fails _ replicas obj _ e hfail, afterFailure]

theorem split_at_index (items : List Object) (k : Nat) (obj : Object)
    (hk : items[k]? = some obj) :
    items = items.take k ++ obj :: items.drop (k + 1) ∧ (items.take k).length = k ∧
      items.take (k + 1) = items.take k ++ [obj] := by
  obtain ⟨hlt, hget⟩ := List.getElem?_eq_some.mp hk
  have h1 : items = items.take k ++ obj :: items.drop (k + 1) := by
    conv_lhs => rw [← List.take_append_drop k items, List.drop_eq_getElem_cons hlt, hget]
  have h2 : (items.take k).length = k := by
    rw [List.length_take]; omega
  refine ⟨h1, h2, ?_⟩
  have h3 : items = (items.take k ++ [obj]) ++ items.drop (k + 1) := by
    rw [List.append_assoc]; exact h1
  conv_lhs => rw [h3]
  exact List.take_left' (by rw [List.length_append, h2]; rfl)

/-! ### Claims about a failing patch and about the nil result -/

/-- C7: for each strategy, namespace, replica target and cluster state, when
patching fails for the first time at the k-th object of the fetched list (the
fetch and the patches of the objects before it succeed, the objects up to it
carry a scale, and its patch fails with e), `Run` returns exactly e, the objects
before position k have their scale at the new value, the k-th object and all
later ones are as they were, and the calls made are the fetch, one successful
patch for each object before k and the failed one, nothing after it. These
conditions on the inputs hold exactly when a failed patch of the k-th object
occurs in the run. -/
theorem run_patch_failure (sc : ResourceScaler) (ns : String) (replicas : Int) (w : World)
    (k : Nat) (obj : Object) (e : ApiError)
    (hu : w.uniqueNames)
    (hk : (w.list sc.kind ns)[k]? = some obj) :
    ((w.faults = List.replicate (k + 1) none ++ some e :: w.faults.drop (k + 2) ∧
        ∀ o ∈ (w.list sc.kind ns).take (k + 1), o.Scale ≠ none) →
      (sc.Run ns replicas w).1 = Outcome.returned (some e) ∧
      (sc.Run ns replicas w).2.list sc.kind ns =
        ((w.list sc.kind ns).take k).map (Object.setScale replicas) ++
          (w.list sc.kind ns).drop k ∧
      (sc.Run ns replicas w).2.calls = w.calls ++ Call.get ns sc.kind none ::
        (((w.list sc.kind ns).take k).map (fun o => Call.patch replicas o none) ++
          [Call.patch replicas obj (some e)])) ∧
    (Call.patch replicas obj (some e) ∈ newCalls w (sc.Run ns replicas w).2 ↔
      (w.faults = List.replicate (k + 1) none ++ some e :: w.faults.drop (k + 2) ∧
        ∀ o ∈ (w.list sc.kind ns).take (k + 1), o.Scale ≠ none)) := by
  obtain ⟨hsplit, hlen, htk⟩ := split_at_index (w.list sc.kind ns) k obj hk
  have hkeys := list_keys_nodup w hu sc.kind ns
  have hnd := list_nodup w hu sc.kind ns
  have hdropk : (w.list sc.kind ns).drop k = obj :: (w.list sc.kind ns).drop (k + 1) := by
    obtain ⟨hlt, hget⟩ := List.getElem?_eq_some.mp hk
    rw [List.drop_eq_getElem_cons hlt, hget]
  have hmain : (w.faults = List.replicate (k + 1) none ++ some e :: w.faults.drop (k + 2) ∧
        ∀ o ∈ (w.list sc.kind ns).take (k + 1), o.Scale ≠ none) →
      (sc.Run ns replicas w).1 = Outcome.returned (some e) ∧
      (sc.Run ns replicas w).2.list sc.kind ns =
        ((w.list sc.kind ns).take k).map (Object.setScale replicas) ++
          (w.list sc.kind ns).drop k ∧
      (sc.Run ns replicas w).2.calls = w.calls ++ Call.get ns sc.kind none ::
        (((w.list sc.kind ns).take k).map (fun o => Call.patch replicas o none) ++
          [Call.patch replicas obj (some e)]) := by
    rintro ⟨hscript, hscale⟩
    obtain ⟨hnf, hf, hdrop⟩ := script_facts w k e _ hscript
    have hpre : ∀ o ∈ (w.list sc.kind ns).take k, o.Scale ≠ none := by
      intro o ho
      apply hscale o
      rw [htk]
      exact List.mem_append_left _ ho
    have hobj : obj.Scale ≠ none := by
      apply hscale obj
      rw [htk]
      simp
    have hfail : (afterPatches sc.log sc.nameKey ns replicas ((w.list sc.kind ns).take k)
        (afterGet ns sc.kind w)).nextFault = some e := by
      rw [nextFault_afterPatches, hlen, hdrop]
    have hrun := run_fails_at sc ns replicas w ((w.list sc.kind ns).take k) obj
      ((w.list sc.kind ns).drop (k + 1)) e hsplit hnf hpre hobj (by rw [hlen]; exact hf) hfail
    rw [hrun]
    refine ⟨rfl, ?_, calls_afterFailure _ _ _ _ _ _ _ _ _⟩
    show (afterFailure sc.log sc.nameKey ns replicas ((w.list sc.kind ns).take k) obj e
      (afterGet ns sc.kind w)).list sc.kind ns = _
    rw [list_afterFailure, list_afterPatches, list_afterGet, hdropk]
    have hkeys2 : (((w.list sc.kind ns).take k ++ obj :: (w.list sc.kind ns).drop (k + 1)).map
        (fun o => (o.Kind, o.Namespace, o.Name))).Nodup := by
      rw [← hsplit]; exact hkeys
    have hfront := map_patched_front replicas ((w.list sc.kind ns).take k)
      (obj :: (w.list sc.kind ns).drop (k + 1)) hkeys2
    rw [← hsplit] at hfront
    exact hfront
  refine ⟨hmain, ⟨?_, ?_⟩⟩
  · intro hfail
    unfold newCalls at hfail
    cases hnf : w.nextFault with
    | some e' =>
      rw [run_get_fails sc ns replicas w e' hnf] at hfail
      simp at hfail
    | none =>
      rw [run_get_ok sc ns replicas w hnf] at hfail
      rcases patchEach_cases sc.client sc.log sc.nameKey ns replicas (w.list sc.kind ns)
          (afterGet ns sc.kind w) with
        ⟨_, _, h3⟩ | ⟨pre, o, post, _, _, _, _, h5⟩ | ⟨pre, o, post, e', h1, h2, h3, h4, h5, h6⟩
      · rw [h3, calls_afterPatches, List.drop_left] at hfail
        simp at hfail
      · rw [h5, calls_afterPatches, List.drop_left] at hfail
        simp at hfail
      · rw [h6, calls_afterFailure, List.drop_left] at hfail
        simp at hfail
        obtain ⟨hobj, he⟩ := hfail
        subst hobj
        subst he
        have hpos : (w.list sc.kind ns)[pre.length]? = some obj := by
          rw [h1, List.getElem?_append_right (Nat.le_refl _)]; simp
        have hlt : pre.length < (w.list sc.kind ns).length := by
          rw [h1]; simp
        have hkeq : pre.length = k := List.getElem?_inj hlt hnd (hpos.trans hk.symm)
        have hpre : (w.list sc.kind ns).take k = pre := by
          rw [h1]; exact List.take_left' hkeq
        rw [nextFault_afterPatches, hkeq] at h5
        rw [hkeq] at h3
        refine ⟨script_of_facts w k e hnf h3 h5, ?_⟩
        intro x hx
        rw [htk, hpre] at hx
        rcases List.mem_append.mp hx with hx | hx
        · exact h2 x hx
        · rw [List.mem_singleton.mp hx]; exact h4
  · intro hin
    unfold newCalls
    rw [(hmain hin).2.2, List.drop_left]
    simp

/-- Witness for C7: for each of the three strategies, three objects in the
shop namespace, the fetch and the first patch succeed, the patch of the second
object fails. -/
theorem run_patch_failure_witness :
    ((sampleScaler.Run "shop" 0 (trioWorld Kind.deployment [none, none, some ⟨"boom"⟩])).1 =
        Outcome.returned (some ⟨"boom"⟩) ∧
      (sampleScaler.Run "shop" 0 (trioWorld Kind.deployment
          [none, none, some ⟨"boom"⟩])).2.list Kind.deployment "shop" =
        [⟨Kind.deployment, "shop", "a", some 0⟩, ⟨Kind.deployment, "shop", "b", some 5⟩,
         ⟨Kind.deployment, "shop", "c", some 5⟩]) ∧
    ((sampleHPA.Run "shop" 0 (trioWorld Kind.hpa [none, none, some ⟨"boom"⟩])).1 =
        Outcome.returned (some ⟨"boom"⟩) ∧
      (sampleHPA.Run "shop" 0 (trioWorld Kind.hpa
          [none, none, some ⟨"boom"⟩])).2.list Kind.hpa "shop" =
        [⟨Kind.hpa, "shop", "a", some 0⟩, ⟨Kind.hpa, "shop", "b", some 5⟩,
         ⟨Kind.hpa, "shop", "c", some 5⟩]) ∧
    ((sampleStatefulSet.Run "shop" 0
          (trioWorld Kind.statefulSet [none, none, some ⟨"boom"⟩])).1 =
        Outcome.returned (some ⟨"boom"⟩) ∧
      (sampleStatefulSet.Run "shop" 0 (trioWorld Kind.statefulSet
          [none, none, some ⟨"boom"⟩])).2.list Kind.statefulSet "shop" =
        [⟨Kind.statefulSet, "shop", "a", some 0⟩, ⟨Kind.statefulSet, "shop", "b", some 5⟩,
         ⟨Kind.statefulSet, "shop", "c", some 5⟩]) :=
  have hd := (run_patch_failure sampleScaler "shop" 0
    (trioWorld Kind.deployment [none, none, some ⟨"boom"⟩]) 1
    ⟨Kind.deployment, "shop", "b", some 5⟩ ⟨"boom"⟩ (by decide) (by decide)).1
    ⟨by decide, by decide⟩
  have hh := (run_patch_failure sampleHPA "shop" 0
    (trioWorld Kind.hpa [none, none, some ⟨"boom"⟩]) 1
    ⟨Kind.hpa, "shop", "b", some 5⟩ ⟨"boom"⟩ (by decide) (by decide)).1
    ⟨by decide, by decide⟩
  have hs := (run_patch_failure sampleStatefulSet "shop" 0
    (trioWorld Kind.statefulSet [none, none, some ⟨"boom"⟩]) 1
    ⟨Kind.statefulSet, "shop", "b", some 5⟩ ⟨"boom"⟩ (by decide) (by decide)).1
    ⟨by decide, by decide⟩
  ⟨⟨hd.1, hd.2.1⟩, ⟨hh.1, hh.2.1⟩, ⟨hs.1, hs.2.1⟩⟩

/-- C9, counterexample: no failure is scripted, so the fetch succeeds and
every patch that is issued succeeds, yet `Run` does not return nil: the second
deployment has a nil `Spec.Replicas`, the run stops there, and the later
objects are not at the requested replicas. -/
theorem run_returns_nil_counterexample :
    (nilScaleWorld []).faults = [] ∧
    (∀ c ∈ (sampleScaler.Run "shop" 0 (nilScaleWorld [])).2.calls, callErr c = none) ∧
    (sampleScaler.Run "shop" 0 (nilScaleWorld [])).1 ≠ Outcome.returned none ∧
    ¬ (∀ o ∈ (sampleScaler.Run "shop" 0 (nilScaleWorld [])).2.list Kind.deployment "shop",
      o.Scale = some 0) := by
  decide

/-- C9, amended: for each strategy, `Run` returns nil exactly when no failure
is scripted for the fetch and the patches of the fetched objects and every
fetched object has its scale set; it then has patched every object of the
fetched list in order and leaves every object of that kind in the namespace
with its scale equal to the requested replicas. For an empty list and a
successful fetch it returns nil having made no Patch call. -/
theorem run_returns_nil (sc : ResourceScaler) (ns : String) (replicas : Int) (w : World) :
    ((sc.Run ns replicas w).1 = Outcome.returned none ↔
      ((∀ f ∈ w.faults.take ((w.list sc.kind ns).length + 1), f = none) ∧
        ∀ o ∈ w.list sc.kind ns, o.Scale ≠ none)) ∧
    ((∀ f ∈ w.faults.take ((w.list sc.kind ns).length + 1), f = none) →
      (∀ o ∈ w.list sc.kind ns, o.Scale ≠ none) →
      (sc.Run ns replicas w).2.list sc.kind ns =
        (w.list sc.kind ns).map (Object.setScale replicas) ∧
      (∀ o ∈ (sc.Run ns replicas w).2.list sc.kind ns, o.Scale = some replicas) ∧
      (sc.Run ns replicas w).2.calls = w.calls ++ Call.get ns sc.kind none ::
        (w.list sc.kind ns).map (fun o => Call.patch replicas o none)) ∧
    (w.nextFault = none → w.list sc.kind ns = [] →
      (sc.Run ns replicas w).1 = Outcome.returned none ∧
      (sc.Run ns replicas w).2.calls = w.calls ++ [Call.get ns sc.kind none] ∧
      (sc.Run ns replicas w).2.objects = w.objects) := by
  have hok : (∀ f ∈ w.faults.take ((w.list sc.kind ns).length + 1), f = none) →
      (∀ o ∈ w.list sc.kind ns, o.Scale ≠ none) →
      sc.Run ns replicas w = (Outcome.returned none,
        afterPatches sc.log sc.nameKey ns replicas (w.list sc.kind ns)
          (afterGet ns sc.kind w)) := by
    intro hf hs
    exact run_ok sc ns replicas w (nextFault_of_take w _ hf) hs (tail_take_of_take w _ hf)
  refine ⟨⟨?_, ?_⟩, ?_, ?_⟩
  · intro hnil
    cases hnf : w.nextFault with
    | some e' =>
      rw [run_get_fails sc ns replicas w e' hnf] at hnil
      simp at hnil
    | none =>
      rw [run_get_ok sc ns replicas w hnf] at hnil
      rcases patchEach_cases sc.client sc.log sc.nameKey ns replicas (w.list sc.kind ns)
          (afterGet ns sc.kind w) with
        ⟨h1, h2, _⟩ | ⟨pre, o, post, _, _, _, _, h5⟩ | ⟨pre, o, post, e', _, _, _, _, _, h6⟩
      · exact ⟨take_succ_of_tail w _ hnf h2, h1⟩
      · rw [h5] at hnil; simp at hnil
      · rw [h6] at hnil; simp at hnil
  · rintro ⟨hf, hs⟩
    rw [hok hf hs]
  · intro hf hs
    rw [hok hf hs]
    have hl : (afterPatches sc.log sc.nameKey ns replicas (w.list sc.kind ns)
        (afterGet ns sc.kind w)).list sc.kind ns =
        (w.list sc.kind ns).map (Object.setScale replicas) := by
      rw [list_afterPatches, list_afterGet, map_patched_all]
    refine ⟨hl, ?_, calls_afterPatches _ _ _ _ _ _ _⟩
    intro o ho
    simp only [] at ho
    rw [hl] at ho
    obtain ⟨q, _, rfl⟩ := List.mem_map.mp ho
    rfl
  · intro hnf hempty
    have hrun := run_ok sc ns replicas w hnf (by rw [hempty]; simp) (by rw [hempty]; simp)
    rw [hrun, hempty]
    refine ⟨rfl, ?_, ?_⟩
    · simp [afterPatches, afterGet]
    · simp [afterPatches_nil, afterGet]

/-- Witness for C9 (amended): for each of the three strategies, with no
failure scripted, the three objects of namespace shop end at the requested 2
replicas and `Run` returns nil. -/
theorem run_returns_nil_witness :
    ((sampleScaler.Run "shop" 2 (trioWorld Kind.deployment [])).1 = Outcome.returned none ∧
      (sampleScaler.Run "shop" 2 (trioWorld Kind.deployment [])).2.list Kind.deployment
          "shop" =
        [⟨Kind.deployment, "shop", "a", some 2⟩, ⟨Kind.deployment, "shop", "b", some 2⟩,
         ⟨Kind.deployment, "shop", "c", some 2⟩]) ∧
    ((sampleHPA.Run "shop" 2 (trioWorld Kind.hpa [])).1 = Outcome.returned none ∧
      (sampleHPA.Run "shop" 2 (trioWorld Kind.hpa [])).2.list Kind.hpa "shop" =
        [⟨Kind.hpa, "shop", "a", some 2⟩, ⟨Kind.hpa, "shop", "b", some 2⟩,
         ⟨Kind.hpa, "shop", "c", some 2⟩]) ∧
    ((sampleStatefulSet.Run "shop" 2 (trioWorld Kind.statefulSet [])).1 =
        Outcome.returned none ∧
      (sampleStatefulSet.Run "shop" 2 (trioWorld Kind.statefulSet [])).2.list
          Kind.statefulSet "shop" =
        [⟨Kind.statefulSet, "shop", "a", some 2⟩, ⟨Kind.statefulSet, "shop", "b", some 2⟩,
         ⟨Kind.statefulSet, "shop", "c", some 2⟩]) :=
  have hd := run_returns_nil sampleScaler "shop" 2 (trioWorld Kind.deployment [])
  have hh := run_returns_nil sampleHPA "shop" 2 (trioWorld Kind.hpa [])
  have hs := run_returns_nil sampleStatefulSet "shop" 2 (trioWorld Kind.statefulSet [])
  ⟨⟨hd.1.mpr ⟨by decide, by decide⟩, (hd.2.1 (by decide) (by decide)).1⟩,
   ⟨hh.1.mpr ⟨by decide, by decide⟩, (hh.2.1 (by decide) (by decide)).1⟩,
   ⟨hs.1.mpr ⟨by decide, by decide⟩, (hs.2.1 (by decide) (by decide)).1⟩⟩

end factory
